import Mathlib

/-!
Shallow embedding of the lwext4_rust wrapper crate (src/): the error layer,
the timestamp codec from inode/attr.rs, the directory/link-count operations
from fs.rs and inode/{mod,dir}.rs, and the block-coalescing file I/O engine
from inode/file.rs.  The external lwext4 engine is a black box whose
correctness the design assumes; its primitives are modelled from the spec
where noted.  Machine integers are Nat with explicit reductions modulo a
power of two only where overflow is semantically relevant.
-/

/-- Error codes used by the wrapper (values as in the generated bindings). -/
def eok : Int := 0
def enoent : Int := 2
def eio : Int := 5
def enotdir : Int := 20
def eisdir : Int := 21
def enametoolong : Int := 36
def enotempty : Int := 39
def enotsup : Int := 95

/-- Mirror of `Ext4Error` in error.rs: numeric code plus optional static context. -/
structure Ext4Error where
  code : Int
  context : Option String
deriving Repr, DecidableEq

/-- A run of wrapper code can fail with an `Ext4Error` or hit an explicit
Rust abort site (an assert that fails or an unimplemented branch). -/
inductive RunErr where
  | fail : Ext4Error → RunErr
  | crash : RunErr
deriving Repr, DecidableEq

/-- Result of running a fallible wrapper operation; mirrors `Ext4Result`. -/
abbrev Res (α : Type) : Type := Except RunErr α

deriving instance DecidableEq for Except

/-- Mirror of the `Context` impl for `i32`: a non-`EOK` code becomes an
error carrying the context label, `EOK` becomes success. -/
def codeContext (code : Int) (ctx : String) : Res Unit :=
  if code ≠ eok then .error (.fail ⟨code, some ctx⟩) else .ok ()

/-- Mirror of `core::time::Duration`: whole seconds plus sub-second
nanoseconds kept below 10^9. -/
structure Duration where
  secs : Nat
  nanos : Nat
deriving Repr, DecidableEq

/-- Mirror of `Duration::new`, which normalizes a nanosecond count of 10^9
or more into the seconds field. -/
def Duration.make (s n : Nat) : Duration :=
  ⟨s + n / 1000000000, n % 1000000000⟩

/-- Mirror of `encode_time` in inode/attr.rs: the 32-bit seconds field plus
the extra field packing 30 bits of nanoseconds above 2 epoch bits.  The
`as u32` casts truncate modulo 2^32; `to_le` is the identity on the value. -/
def encode_time (dur : Duration) : Nat × Nat :=
  let sec := dur.secs
  let nsec := dur.nanos
  let time := sec % 2 ^ 32
  let extra := ((nsec <<< 2) ||| sec / 2 ^ 32 % 2 ^ 32) % 2 ^ 32
  (time, extra)

/-- Mirror of `decode_time` in inode/attr.rs, faithful to the source: it
computes `epoch = extra &&& 3` and then `nsec = epoch >>> 2` (not
`extra >>> 2`), so the decoded nanosecond count is the low two bits of
`extra` shifted away. -/
def decode_time (time extra : Nat) : Duration :=
  let sec := time
  let epoch := extra &&& 3
  let nsec := epoch >>> 2
  Duration.make (sec + (epoch <<< 32)) nsec

/-- Inode type enumeration from inode/mod.rs; the numeric encoding is the
enum's `repr(u8)` value, which also appears in the high byte of the mode. -/
inductive InodeType where
  | unknown
  | fifo
  | characterDevice
  | directory
  | blockDevice
  | regularFile
  | symlink
  | socket
deriving Repr, DecidableEq

/-- Numeric value of each `InodeType` variant, as declared in inode/mod.rs. -/
def InodeType.toCode : InodeType → Nat
  | .unknown => 0
  | .fifo => 1
  | .characterDevice => 2
  | .directory => 4
  | .blockDevice => 6
  | .regularFile => 8
  | .symlink => 10
  | .socket => 12

/-- Mirror of the `From<u8>` impl for `InodeType`. -/
def InodeType.ofCode : Nat → InodeType
  | 1 => .fifo
  | 2 => .characterDevice
  | 4 => .directory
  | 6 => .blockDevice
  | 8 => .regularFile
  | 10 => .symlink
  | 12 => .socket
  | _ => .unknown

/-- The engine-visible view of one allocated inode: the u32 mode whose high
byte carries the type, the u16 link count, and the u64 byte size. -/
structure Inode where
  mode : Nat
  nlink : Nat
  size : Nat
deriving Repr, DecidableEq

/-- Mirror of `InodeRef::inode_type`: the high byte of the mode (the
`>> 24` of the source written as division by 2^24). -/
def Inode.inodeType (i : Inode) : InodeType :=
  InodeType.ofCode (i.mode / 2 ^ 24 % 256)

/-- First value bound to a key in an association list. -/
def assocFind {κ β : Type} [DecidableEq κ] : List (κ × β) → κ → Option β
  | [], _ => none
  | (k', v) :: rest, k => if k' = k then some v else assocFind rest k

/-- Update or insert one binding of an association list. -/
def setAssoc {β : Type} : List (Nat × β) → Nat → β → List (Nat × β)
  | [], k, v => [(k, v)]
  | (k', v') :: rest, k, v =>
    if k' = k then (k, v) :: rest else (k', v') :: setAssoc rest k v

/-- The mounted filesystem as the engine exposes it to the wrapper: the
superblock's log block size, the allocated inodes, each directory's entry
list in on-disk order, and the next inode number the allocator hands out. -/
structure FsState where
  logBlockSize : Nat
  inodes : List (Nat × Inode)
  dirents : List (Nat × List (String × Nat))
  nextIno : Nat
deriving Repr, DecidableEq

/-- Mirror of `get_block_size` in util.rs: 1024 shifted by the superblock's
log block size. -/
def FsState.blockSize (st : FsState) : Nat :=
  1024 * 2 ^ st.logBlockSize

/-- The inode currently allocated under a number, if any. -/
def FsState.inode (st : FsState) (ino : Nat) : Option Inode :=
  assocFind st.inodes ino

/-- A directory's entry list (a directory with no recorded list is empty). -/
def FsState.entries (st : FsState) (ino : Nat) : List (String × Nat) :=
  (assocFind st.dirents ino).getD []

/-- Apply a function to every binding of a key in an inode table. -/
def updAssoc (f : Inode → Inode) : List (Nat × Inode) → Nat → List (Nat × Inode)
  | [], _ => []
  | (k, v) :: rest, ino =>
    if k = ino then (k, f v) :: updAssoc f rest ino
    else (k, v) :: updAssoc f rest ino

/-- Drop every binding of a key from an inode table. -/
def dropKey : List (Nat × Inode) → Nat → List (Nat × Inode)
  | [], _ => []
  | (k, v) :: rest, ino =>
    if k = ino then dropKey rest ino else (k, v) :: dropKey rest ino

/-- Apply a function to the inode stored under a number. -/
def FsState.updInode (st : FsState) (ino : Nat) (f : Inode → Inode) : FsState :=
  { st with inodes := updAssoc f st.inodes ino }

/-- Link count of an inode as read live from the shared engine state. -/
def nlinkOf (st : FsState) (ino : Nat) : Nat :=
  ((st.inode ino).map Inode.nlink).getD 0

/-- Mode of an inode as read live from the shared engine state. -/
def modeOf (st : FsState) (ino : Nat) : Nat :=
  ((st.inode ino).map Inode.mode).getD 0

/-- Type of an inode as read live from the shared engine state. -/
def itypeOf (st : FsState) (ino : Nat) : InodeType :=
  ((st.inode ino).map Inode.inodeType).getD .unknown

/-- Modelled from the spec: `ext4_fs_get_inode_ref` checks out an inode by
number and fails if the inode does not exist or cannot be loaded; the
wrapper attaches its context label to the failure. -/
def getInodeRef (st : FsState) (ino : Nat) : Res Inode :=
  match st.inode ino with
  | some i => .ok i
  | none => .error (.fail ⟨enoent, some "ext4_fs_get_inode_ref"⟩)

/-- Mirror of `clone_ref` in fs.rs: a second checkout of the same inode
number whose failure is an `expect`, that is, a Rust panic. -/
def cloneRef (st : FsState) (ino : Nat) : Res Inode :=
  match st.inode ino with
  | some i => .ok i
  | none => .error .crash

/-- Modelled from the spec: `ext4_dir_find_entry` performs an exact-name
search over the directory's entries and yields the first match. -/
def dirFindEntry (st : FsState) (dir : Nat) (name : String) : Option Nat :=
  assocFind (st.entries dir) name

/-- Mirror of `InodeRef::lookup` in inode/dir.rs: not-found is the
distinguished `ENOENT` error carrying the engine call's context label. -/
def lookupEntry (st : FsState) (dir : Nat) (name : String) : Res Nat :=
  match dirFindEntry st dir name with
  | some ino => .ok ino
  | none => .error (.fail ⟨enoent, some "ext4_dir_find_entry"⟩)

/-- Modelled from the spec: `ext4_dir_add_entry` appends a (name, inode)
record to a directory's entry list; the target must be a directory. -/
def dirAddEntry (st : FsState) (dir : Nat) (name : String) (child : Nat) :
    Res FsState :=
  match st.inode dir with
  | none => .error (.fail ⟨eio, some "ext4_dir_add_entry"⟩)
  | some d =>
    if d.inodeType = .directory then
      .ok { st with dirents := setAssoc st.dirents dir (st.entries dir ++ [(name, child)]) }
    else .error (.fail ⟨enotdir, some "ext4_dir_add_entry"⟩)

/-- Modelled from the spec: `ext4_fs_inode_links_count_inc` raises the u16
link count through the engine's own helper. -/
def linksCountInc (st : FsState) (ino : Nat) : FsState :=
  st.updInode ino fun i => { i with nlink := (i.nlink + 1) % 65536 }

/-- Modelled from the spec: `ext4_fs_inode_links_count_dec` lowers the link
count through the engine's own helper, which never drops it below zero. -/
def linksCountDec (st : FsState) (ino : Nat) : FsState :=
  st.updInode ino fun i => { i with nlink := i.nlink - 1 }

/-- Mirror of `InodeRef::add_entry` in inode/dir.rs: the engine adds the
record, then the added inode's link count is incremented as part of the
same logical operation. -/
def addEntry (st : FsState) (dir : Nat) (name : String) (child : Nat) :
    Res FsState := do
  let st ← dirAddEntry st dir name child
  .ok (linksCountInc st child)

/-- Drop the first entry carrying the given name, keeping the rest. -/
def removeFirst : List (String × Nat) → String → List (String × Nat)
  | [], _ => []
  | (n, i) :: rest, name =>
    if n = name then rest else (n, i) :: removeFirst rest name

/-- Modelled from the spec: `ext4_dir_remove_entry` removes the named record
from the directory, failing with `ENOENT` when no such record exists. -/
def removeEntry (st : FsState) (dir : Nat) (name : String) : Res FsState :=
  match dirFindEntry st dir name with
  | none => .error (.fail ⟨enoent, some "ext4_dir_remove_entry"⟩)
  | some _ =>
    .ok { st with dirents := setAssoc st.dirents dir (removeFirst (st.entries dir) name) }

/-- Mirror of `InodeRef::set_nlink`: writes the u16 link count directly. -/
def setNlink (st : FsState) (ino : Nat) (n : Nat) : FsState :=
  st.updInode ino fun i => { i with nlink := n % 65536 }

/-- Mirror of `InodeRef::set_mode`: writes the u32 mode field. -/
def setMode (st : FsState) (ino : Nat) (m : Nat) : FsState :=
  st.updInode ino fun i => { i with mode := m % 2 ^ 32 }

/-- Modelled from the spec: `ext4_fs_truncate_inode` shrinks the inode's
content, never growing it. -/
def truncateInode (st : FsState) (ino : Nat) (size : Nat) : Res FsState :=
  .ok (st.updInode ino fun i => { i with size := min i.size size })

/-- Modelled from the spec: `ext4_fs_free_inode` releases the inode back to
the allocator, removing it from the set of allocated inodes. -/
def freeInode (st : FsState) (ino : Nat) : FsState :=
  { st with inodes := dropKey st.inodes ino }

/-- Modelled from the spec: `ext4_dir_iterator_init` positions a cursor over
a directory's entries in on-disk order; a non-directory has no entry stream
to iterate, so initialization on one fails. -/
def dirIterEntries (st : FsState) (ino : Nat) : Res (List (String × Nat)) :=
  match st.inode ino with
  | some i =>
    if i.inodeType = .directory then .ok (st.entries ino)
    else .error (.fail ⟨enotdir, some "ext4_dir_iterator_init"⟩)
  | none => .error (.fail ⟨eio, some "ext4_dir_iterator_init"⟩)

/-- The entry scan inside `has_children`: true at the first entry whose name
is neither a dot nor a double dot. -/
def hasChildrenLoop : List (String × Nat) → Bool
  | [] => false
  | (n, _) :: rest =>
    if ¬(n = "." ∨ n = "..") then true else hasChildrenLoop rest

/-- Mirror of `InodeRef::has_children` in inode/dir.rs: a non-directory
reports false before any iterator is initialized; a directory scans its
entries for one that is neither dot nor double dot. -/
def hasChildren (st : FsState) (ino : Nat) : Res Bool := do
  let i ← getInodeRef st ino
  if i.inodeType ≠ .directory then return false
  let ents ← dirIterEntries st ino
  return hasChildrenLoop ents

/-- Mirror of `Ext4Filesystem::unlink` in fs.rs, with every inode field read
live from the shared engine state exactly where the source reads it. -/
def unlink (st : FsState) (dir : Nat) (name : String) : Res FsState := do
  let _dirRef ← getInodeRef st dir
  let _dirClone ← cloneRef st dir
  let child ← lookupEntry st dir name
  let _childRef ← getInodeRef st child
  let _childClone ← cloneRef st child
  let hc ← hasChildren st child
  if hc then throw (.fail ⟨enotempty, none⟩)
  let st ←
    if itypeOf st child ≠ .directory then
      truncateInode st child 0
    else do
      let st ← truncateInode st child st.blockSize
      truncateInode st child 0
  let st ← removeEntry st dir name
  let st := if itypeOf st child = .directory then linksCountDec st dir else st
  let st := if nlinkOf st child > 0 then linksCountDec st child else st
  let st := setNlink st child 0
  .ok (freeInode st child)

/-- Modelled from the spec: `ext4_fs_alloc_inode` hands out a fresh inode of
the requested type, not yet linked into any directory, and
`ext4_fs_inode_blocks_init` initializes its block-mapping state.  The new
mode carries the type in its high byte; the permission bits start clear. -/
def allocInode (st : FsState) (ty : InodeType) : FsState × Nat :=
  let ino := st.nextIno
  ({ st with
      inodes := (ino, { mode := ty.toCode * 2 ^ 24, nlink := 0, size := 0 }) :: st.inodes,
      nextIno := ino + 1 },
   ino)

/-- Mirror of `Ext4Filesystem::create` in fs.rs. -/
def create (st : FsState) (parent : Nat) (name : String) (ty : InodeType)
    (mode : Nat) : Res (FsState × Nat) := do
  let (st, child) := allocInode st ty
  let _parentRef ← getInodeRef st parent
  let st ← addEntry st parent name child
  let st ←
    if ty = .directory then do
      let _childClone ← cloneRef st child
      let st ← addEntry st child "." child
      let st ← addEntry st child ".." parent
      .ok (setNlink st child 2)
    else .ok st
  let st := setMode st child ((modeOf st child &&& (2 ^ 32 - 1 - 0o777)) ||| (mode &&& 0o777))
  .ok (st, child)

/-- Overwrite the inode number of the first entry carrying the given name;
mirror of the in-place `raw_entry_mut().set_ino` rewrite in `rename`. -/
def setIno : List (String × Nat) → String → Nat → List (String × Nat)
  | [], _, _ => []
  | (n, i) :: rest, name, ino =>
    if n = name then (name, ino) :: rest else (n, i) :: setIno rest name ino

/-- Rewrite the named entry of a directory to point at another inode. -/
def setEntryIno (st : FsState) (dir : Nat) (name : String) (ino : Nat) : FsState :=
  { st with dirents := setAssoc st.dirents dir (setIno (st.entries dir) name ino) }

/-- The part of `Ext4Filesystem::rename` after the destination cleanup:
source lookup, the double-dot rewrite and link-count adjustments for a
moved directory, entry removal and re-add. -/
def renameTail (st : FsState) (srcDir : Nat) (srcName : String) (dstDir : Nat)
    (dstName : String) : Res FsState := do
  let src ← lookupEntry st srcDir srcName
  let srcRef ← getInodeRef st src
  let st ←
    if srcRef.inodeType = .directory then do
      let _srcClone ← cloneRef st src
      let _target ← lookupEntry st src ".."
      let st := setEntryIno st src ".." dstDir
      let st := linksCountDec st srcDir
      .ok (linksCountInc st dstDir)
    else .ok st
  let st ← removeEntry st srcDir srcName
  addEntry st dstDir dstName src

/-- Mirror of `Ext4Filesystem::rename` in fs.rs: destination cleanup whose
not-found failure is suppressed while any other failure aborts, followed by
the move itself. -/
def rename (st : FsState) (srcDir : Nat) (srcName : String) (dstDir : Nat)
    (dstName : String) : Res FsState := do
  let _srcDirRef ← getInodeRef st srcDir
  let _dstDirRef ← getInodeRef st dstDir
  let st ←
    match unlink st dstDir dstName with
    | .ok st' => .ok st'
    | .error (.fail e) => if e.code = enoent then .ok st else .error (.fail e)
    | .error .crash => .error .crash
  renameTail st srcDir srcName dstDir dstName

/-- The engine-side directory cursor: either positioned at a valid entry or
exhausted (a null current pointer), plus the not-yet-visited entries. -/
structure DirIterState where
  curr : Option (String × Nat)
  rest : List (String × Nat)
deriving Repr, DecidableEq

/-- Modelled from the spec: `ext4_dir_iterator_next` advances the cursor to
the next entry, or past the last entry leaves it exhausted. -/
def dirIteratorNext (it : DirIterState) : DirIterState :=
  match it.rest with
  | [] => ⟨none, []⟩
  | e :: r => ⟨some e, r⟩

/-- Mirror of `DirReader::current`: no entry once the cursor is null. -/
def DirReader.current (it : DirIterState) : Option (String × Nat) :=
  it.curr

/-- Mirror of `DirReader::step`: advances through the engine only when the
cursor is not yet null; otherwise a no-op success. -/
def DirReader.step (it : DirIterState) : Res DirIterState :=
  if it.curr.isSome then .ok (dirIteratorNext it) else .ok it

/-- A sequence of `step` calls chained through the fallible result. -/
def DirReader.stepRun (it : DirIterState) : Nat → Res DirIterState
  | 0 => .ok it
  | n + 1 => do
    let it' ← DirReader.step it
    DirReader.stepRun it' n

@[simp]
theorem okBind {α β : Type} (a : α) (f : α → Res β) :
    (Except.ok a >>= f : Res β) = f a := rfl

@[simp]
theorem errBind {α β : Type} (e : RunErr) (f : α → Res β) :
    (Except.error e >>= f : Res β) = Except.error e := rfl

@[simp]
theorem throwDef {α : Type} (e : RunErr) : (throw e : Res α) = Except.error e := rfl

@[simp]
theorem pureDef {α : Type} (a : α) : (pure a : Res α) = Except.ok a := rfl

theorem find_setAssoc_self {β : Type} (l : List (Nat × β)) (k : Nat) (v : β) :
    assocFind (setAssoc l k v) k = some v := by
  induction l with
  | nil => simp [setAssoc, assocFind]
  | cons p rest ih =>
    obtain ⟨k', v'⟩ := p
    by_cases h : k' = k
    · subst h; simp [setAssoc, assocFind]
    · simp [setAssoc, h, assocFind, ih]

theorem find_setAssoc_ne {β : Type} (l : List (Nat × β)) (k j : Nat) (v : β)
    (h : j ≠ k) : assocFind (setAssoc l k v) j = assocFind l j := by
  induction l with
  | nil => simp [setAssoc, assocFind, Ne.symm h]
  | cons p rest ih =>
    obtain ⟨k', v'⟩ := p
    by_cases hk : k' = k
    · subst hk; simp [setAssoc, assocFind, Ne.symm h]
    · by_cases hj : k' = j
      · subst hj; simp [setAssoc, hk, assocFind]
      · simp [setAssoc, hk, assocFind, hj, ih]

theorem find_updAssoc {l : List (Nat × Inode)} {ino j : Nat} {f : Inode → Inode} :
    assocFind (updAssoc f l ino) j
      = (assocFind l j).map fun v => if j = ino then f v else v := by
  induction l with
  | nil => rfl
  | cons p rest ih =>
    obtain ⟨k, v⟩ := p
    by_cases hk : k = ino
    · subst hk
      by_cases hj : k = j
      · subst hj
        simp [updAssoc, assocFind]
      · simp [updAssoc, assocFind, hj, ih]
    · by_cases hj : k = j
      · subst hj
        simp [updAssoc, assocFind, hk, Ne.symm hk]
      · simp [updAssoc, assocFind, hk, hj, ih]

theorem find_dropKey {l : List (Nat × Inode)} {ino j : Nat} :
    assocFind (dropKey l ino) j = if j = ino then none else assocFind l j := by
  induction l with
  | nil => simp [dropKey, assocFind]
  | cons p rest ih =>
    obtain ⟨k, v⟩ := p
    by_cases hk : k = ino
    · subst hk
      by_cases hj : j = k
      · subst hj
        simp [dropKey, assocFind, ih]
      · simp [dropKey, assocFind, ih, hj, Ne.symm hj]
    · by_cases hj : k = j
      · subst hj
        simp [dropKey, assocFind, hk, Ne.symm hk]
      · by_cases hji : j = ino
        · subst hji
          simp [dropKey, assocFind, hk, hj, ih]
        · simp [dropKey, assocFind, hk, hj, ih, hji]

theorem assocFind_append_of_none {κ β : Type} [DecidableEq κ]
    {l₁ l₂ : List (κ × β)} {k : κ} (h : assocFind l₁ k = none) :
    assocFind (l₁ ++ l₂) k = assocFind l₂ k := by
  induction l₁ with
  | nil => rfl
  | cons p rest ih =>
    obtain ⟨n, v⟩ := p
    by_cases hn : n = k
    · simp [assocFind, hn] at h
    · simp only [assocFind, hn, if_false, List.cons_append] at h ⊢
      simp [assocFind, hn]
      exact ih h

theorem assocFind_removeFirst_ne {l : List (String × Nat)} {n m : String}
    (h : n ≠ m) : assocFind (removeFirst l m) n = assocFind l n := by
  induction l with
  | nil => rfl
  | cons p rest ih =>
    obtain ⟨n', v⟩ := p
    by_cases hm : n' = m
    · subst hm
      have : ¬n' = n := fun he => h (he ▸ rfl)
      simp [removeFirst, assocFind, this]
    · by_cases hn : n' = n
      · subst hn
        simp [removeFirst, hm, assocFind]
      · simp [removeFirst, hm, assocFind, hn, ih]

theorem assocFind_removeFirst_none {l : List (String × Nat)} {k m : String}
    (h : assocFind l k = none) : assocFind (removeFirst l m) k = none := by
  induction l with
  | nil => rfl
  | cons p rest ih =>
    obtain ⟨n, v⟩ := p
    by_cases hn : n = k
    · simp [assocFind, hn] at h
    · simp only [assocFind, hn, if_false] at h
      by_cases hm : n = m
      · simpa [removeFirst, hm] using h
      · simp [removeFirst, hm, assocFind, hn]
        exact ih h

@[simp]
theorem entries_updInode (st : FsState) (ino : Nat) (f : Inode → Inode) (j : Nat) :
    (st.updInode ino f).entries j = st.entries j := rfl

@[simp]
theorem blockSize_updInode (st : FsState) (ino : Nat) (f : Inode → Inode) :
    (st.updInode ino f).blockSize = st.blockSize := rfl

@[simp]
theorem dirents_updInode (st : FsState) (ino : Nat) (f : Inode → Inode) :
    (st.updInode ino f).dirents = st.dirents := rfl

@[simp]
theorem inode_updInode (st : FsState) (ino : Nat) (f : Inode → Inode) (j : Nat) :
    (st.updInode ino f).inode j
      = (st.inode j).map fun v => if j = ino then f v else v :=
  find_updAssoc

@[simp]
theorem inode_freeInode (st : FsState) (ino j : Nat) :
    (freeInode st ino).inode j = if j = ino then none else st.inode j :=
  find_dropKey

@[simp]
theorem entries_freeInode (st : FsState) (ino j : Nat) :
    (freeInode st ino).entries j = st.entries j := rfl

@[simp]
theorem dirFindEntry_updInode (st : FsState) (ino : Nat) (f : Inode → Inode)
    (dir : Nat) (name : String) :
    dirFindEntry (st.updInode ino f) dir name = dirFindEntry st dir name := rfl

@[simp]
theorem inodeType_size_upd (c : Inode) (s : Nat) :
    Inode.inodeType { c with size := s } = c.inodeType := rfl

@[simp]
theorem inodeType_nlink_upd (c : Inode) (n : Nat) :
    Inode.inodeType { c with nlink := n } = c.inodeType := rfl

@[simp]
theorem nlink_size_upd (c : Inode) (s : Nat) :
    ({ c with size := s } : Inode).nlink = c.nlink := rfl

@[simp]
theorem mode_size_upd (c : Inode) (s : Nat) :
    ({ c with size := s } : Inode).mode = c.mode := rfl

theorem hasChildren_non_dir {st : FsState} {ino : Nat} {i : Inode}
    (hi : st.inode ino = some i) (hnd : i.inodeType ≠ .directory) :
    hasChildren st ino = .ok false := by
  simp [hasChildren, getInodeRef, hi, hnd]

theorem hasChildren_dir {st : FsState} {ino : Nat} {i : Inode}
    (hi : st.inode ino = some i) (hd : i.inodeType = .directory) :
    hasChildren st ino = .ok (hasChildrenLoop (st.entries ino)) := by
  simp [hasChildren, getInodeRef, hi, hd, dirIterEntries]

/-- Execution of `unlink` up to the emptiness check when the child directory
has an entry besides the dot entries: the not-empty error, with no context. -/
theorem unlink_run_nonempty {st : FsState} {dir child : Nat} {d c : Inode}
    {name : String}
    (hdir : st.inode dir = some d)
    (hfind : dirFindEntry st dir name = some child)
    (hchild : st.inode child = some c)
    (hcdir : c.inodeType = .directory)
    (htrue : hasChildrenLoop (st.entries child) = true) :
    unlink st dir name = .error (.fail ⟨enotempty, none⟩) := by
  simp [unlink, getInodeRef, cloneRef, lookupEntry, hdir, hfind, hchild,
    hasChildren_dir hchild hcdir, htrue]

/-- Execution of `unlink` on a child that is not a directory: the run
succeeds, the entry is removed, the child inode is freed unconditionally,
and every other inode, the parent's link count included, is untouched. -/
theorem unlink_run_nondir {st : FsState} {dir child : Nat} {d c : Inode}
    {name : String}
    (hdir : st.inode dir = some d)
    (hfind : dirFindEntry st dir name = some child)
    (hchild : st.inode child = some c)
    (hcnd : c.inodeType ≠ .directory) :
    ∃ st', unlink st dir name = .ok st' ∧
      st'.logBlockSize = st.logBlockSize ∧ st'.nextIno = st.nextIno ∧
      (∀ j, st'.inode j = if j = child then none else st.inode j) ∧
      (∀ k, st'.entries k =
        if k = dir then removeFirst (st.entries dir) name else st.entries k) := by
  have hchild' : assocFind st.inodes child = some c := hchild
  have hdir' : assocFind st.inodes dir = some d := hdir
  have hfind' : assocFind ((assocFind st.dirents dir).getD []) name = some child := hfind
  have hit : itypeOf st child = c.inodeType := by simp [itypeOf, hchild]
  by_cases hn : 0 < c.nlink <;>
  simp [unlink, getInodeRef, cloneRef, lookupEntry, hdir, hfind, hchild,
    hasChildren_non_dir hchild hcnd, truncateInode, removeEntry, hit, hcnd, hn,
    itypeOf, nlinkOf, dirFindEntry, FsState.updInode, FsState.inode, FsState.entries,
    find_updAssoc, hchild', hdir', hfind', setNlink, linksCountDec, freeInode] <;>
  · constructor
    · intro j
      by_cases hj : j = child
      · subst hj
        simp [find_dropKey]
      · simp [find_dropKey, find_updAssoc, hj]
    · intro k
      by_cases hk : k = dir
      · subst hk
        simp [find_setAssoc_self]
      · simp [find_setAssoc_ne _ _ _ _ hk, hk]

/-- Execution of `unlink` on a child that is an empty directory: the run
succeeds, the entry is removed, the parent loses exactly one link, and the
child inode is freed. -/
theorem unlink_run_emptydir {st : FsState} {dir child : Nat} {d c : Inode}
    {name : String}
    (hdir : st.inode dir = some d)
    (hfind : dirFindEntry st dir name = some child)
    (hchild : st.inode child = some c)
    (hcdir : c.inodeType = .directory)
    (hempty : hasChildrenLoop (st.entries child) = false)
    (hne : child ≠ dir) :
    ∃ st', unlink st dir name = .ok st' ∧
      st'.logBlockSize = st.logBlockSize ∧ st'.nextIno = st.nextIno ∧
      (∀ j, st'.inode j =
        if j = child then none
        else if j = dir then some { d with nlink := d.nlink - 1 }
        else st.inode j) ∧
      (∀ k, st'.entries k =
        if k = dir then removeFirst (st.entries dir) name else st.entries k) := by
  have hchild' : assocFind st.inodes child = some c := hchild
  have hdir' : assocFind st.inodes dir = some d := hdir
  have hfind' : assocFind ((assocFind st.dirents dir).getD []) name = some child := hfind
  have hempty' : hasChildrenLoop ((assocFind st.dirents child).getD []) = false := hempty
  have hit : itypeOf st child = c.inodeType := by simp [itypeOf, hchild]
  by_cases hn : 0 < c.nlink <;>
  simp [unlink, getInodeRef, cloneRef, lookupEntry, hdir, hfind, hchild,
    hasChildren_dir hchild hcdir, hempty, hempty', truncateInode, removeEntry, hit, hcdir,
    hn, hne, itypeOf, nlinkOf, dirFindEntry, FsState.updInode, FsState.inode,
    FsState.entries, find_updAssoc, hchild', hdir', hfind', setNlink,
    linksCountDec, freeInode] <;>
  · constructor
    · intro j
      by_cases hj : j = child
      · subst hj
        simp [find_dropKey]
      · by_cases hjd : j = dir
        · subst hjd
          simp [find_dropKey, find_updAssoc, hj, hdir', Ne.symm hne]
        · simp [find_dropKey, find_updAssoc, hj, hjd]
    · intro k
      by_cases hk : k = dir
      · subst hk
        simp [find_setAssoc_self]
      · simp [find_setAssoc_ne _ _ _ _ hk, hk]

theorem hasChildrenLoop_iff (l : List (String × Nat)) :
    hasChildrenLoop l = true ↔ ∃ e ∈ l, e.1 ≠ "." ∧ e.1 ≠ ".." := by
  induction l with
  | nil => simp [hasChildrenLoop]
  | cons p rest ih =>
    obtain ⟨n, i⟩ := p
    by_cases h : n = "." ∨ n = ".."
    · have hloop : hasChildrenLoop ((n, i) :: rest) = hasChildrenLoop rest := by
        simp [hasChildrenLoop, h]
      rw [hloop, ih]
      constructor
      · rintro ⟨e, he, hne⟩
        exact ⟨e, List.mem_cons_of_mem _ he, hne⟩
      · rintro ⟨e, he, hne⟩
        rcases List.mem_cons.mp he with rfl | he'
        · rcases h with h | h
          · exact absurd h hne.1
          · exact absurd h hne.2
        · exact ⟨e, he', hne⟩
    · push_neg at h
      have hloop : hasChildrenLoop ((n, i) :: rest) = true := by
        simp [hasChildrenLoop, h.1, h.2]
      rw [hloop]
      simp only [true_iff]
      exact ⟨(n, i), List.mem_cons_self _ _, h.1, h.2⟩

/-- Turn the absence of a loop hit into the loop's false result. -/
theorem hasChildrenLoop_false_of_all_dots {l : List (String × Nat)}
    (hall : ∀ e ∈ l, e.1 = "." ∨ e.1 = "..") : hasChildrenLoop l = false := by
  cases hb : hasChildrenLoop l
  · rfl
  · obtain ⟨e, he, hne1, hne2⟩ := (hasChildrenLoop_iff _).mp hb
    rcases hall e he with h | h
    · exact absurd h hne1
    · exact absurd h hne2

/-- C10: `has_children` on an inode that is not a directory answers false
with no error through the early return that precedes any iterator setup
(iterator initialization on a non-directory fails in the engine model, so
the successful false answer shows the iterator was never initialized), and
`unlink` therefore never rejects a non-directory child as not-empty. -/
theorem has_children_non_directory_ok_false (st : FsState) (ino : Nat) (i : Inode)
    (hi : st.inode ino = some i) (hnd : i.inodeType ≠ .directory) :
    hasChildren st ino = .ok false ∧
      ∀ dir name, dirFindEntry st dir name = some ino →
        unlink st dir name ≠ .error (.fail ⟨enotempty, none⟩) := by
  refine ⟨hasChildren_non_dir hi hnd, ?_⟩
  intro dir name hfind
  cases hdir : st.inode dir with
  | none =>
    simp [unlink, getInodeRef, hdir]
  | some d =>
    obtain ⟨st', hrun, -⟩ := unlink_run_nondir hdir hfind hi hnd
    simp [hrun]

/-- Example state for C10: directory 1 holds a regular file 2 under "f". -/
def exC10 : FsState :=
  ⟨0, [(1, ⟨4 <<< 24, 2, 1024⟩), (2, ⟨8 <<< 24, 1, 5⟩)], [(1, [("f", 2)])], 3⟩

/-- C10 witness at the example state. -/
theorem has_children_non_directory_ok_false_witness :
    hasChildren exC10 2 = .ok false ∧
      unlink exC10 1 "f" ≠ .error (.fail ⟨enotempty, none⟩) := by
  have h := has_children_non_directory_ok_false exC10 2 ⟨8 <<< 24, 1, 5⟩
    (by decide) (by decide)
  exact ⟨h.1, h.2 1 "f" (by decide)⟩

/-- Example state for C3: regular file 2 has two hard links, "f" in
directory 1 and "g" in directory 3. -/
def exC3 : FsState :=
  ⟨0, [(1, ⟨4 <<< 24, 2, 1024⟩), (2, ⟨8 <<< 24, 2, 5⟩), (3, ⟨4 <<< 24, 2, 1024⟩)],
    [(1, [("f", 2)]), (3, [("g", 2)])], 4⟩

/-- The state left behind by `unlink exC3 1 "f"`. -/
def exC3res : FsState :=
  ⟨0, [(1, ⟨4 <<< 24, 2, 1024⟩), (3, ⟨4 <<< 24, 2, 1024⟩)],
    [(1, []), (3, [("g", 2)])], 4⟩

/-- C3 counterexample: inode 2 enters with link count 2, so after one
decrement its count is 1, still positive because the hard link "g" in
directory 3 remains, yet `unlink` frees it: afterwards inode 2 is no longer
allocated while the second directory entry still names it. -/
theorem unlink_frees_despite_remaining_links :
    nlinkOf exC3 2 = 2 ∧ 0 < nlinkOf exC3 2 - 1 ∧
      unlink exC3 1 "f" = .ok exC3res ∧ exC3res.inode 2 = none ∧
      dirFindEntry exC3res 3 "g" = some 2 := by
  decide

/-- C3 amended: when the unlink checks pass (the entry exists, and the named
child is not a directory with an entry besides the dot entries), `unlink`
removes the directory entry, lowers a positive link count by one, then
unconditionally zeroes the count and frees the inode, even when other hard
links to it remain. -/
theorem unlink_removes_entry_and_always_frees (st : FsState) (dir child : Nat)
    (d c : Inode) (name : String)
    (hdir : st.inode dir = some d)
    (hfind : dirFindEntry st dir name = some child)
    (hchild : st.inode child = some c)
    (hne : child ≠ dir)
    (hok : c.inodeType = .directory → hasChildrenLoop (st.entries child) = false) :
    ∃ st', unlink st dir name = .ok st' ∧
      st'.entries dir = removeFirst (st.entries dir) name ∧
      st'.inode child = none := by
  by_cases hcd : c.inodeType = .directory
  · obtain ⟨st', h1, -, -, hj, hk⟩ :=
      unlink_run_emptydir hdir hfind hchild hcd (hok hcd) hne
    refine ⟨st', h1, ?_, ?_⟩
    · simpa using hk dir
    · simpa using hj child
  · obtain ⟨st', h1, -, -, hj, hk⟩ := unlink_run_nondir hdir hfind hchild hcd
    refine ⟨st', h1, ?_, ?_⟩
    · simpa using hk dir
    · simpa using hj child

/-- C3 witness for the amended statement, at the two-hard-link state. -/
theorem unlink_removes_entry_and_always_frees_witness :
    ∃ st', unlink exC3 1 "f" = .ok st' ∧
      st'.entries 1 = removeFirst (exC3.entries 1) "f" ∧
      st'.inode 2 = none := by
  exact unlink_removes_entry_and_always_frees exC3 1 2 ⟨4 <<< 24, 2, 1024⟩
    ⟨8 <<< 24, 2, 5⟩ "f" (by decide) (by decide) (by decide) (by decide) (by decide)

/-- C4: under an existing entry, `unlink` fails with the bare not-empty
error exactly when the named child is a directory with an entry besides dot
and double dot; on an empty child directory it succeeds, removes the entry,
and lowers the parent directory's link count by exactly one. -/
theorem unlink_empty_dir_checks (st : FsState) (dir child : Nat) (d c : Inode)
    (name : String)
    (hdir : st.inode dir = some d)
    (hfind : dirFindEntry st dir name = some child)
    (hchild : st.inode child = some c)
    (hne : child ≠ dir) :
    (unlink st dir name = .error (.fail ⟨enotempty, none⟩) ↔
      c.inodeType = .directory ∧ ∃ e ∈ st.entries child, e.1 ≠ "." ∧ e.1 ≠ "..") ∧
    (c.inodeType = .directory → (∀ e ∈ st.entries child, e.1 = "." ∨ e.1 = "..") →
      0 < d.nlink →
      ∃ st', unlink st dir name = .ok st' ∧
        st'.entries dir = removeFirst (st.entries dir) name ∧
        nlinkOf st' dir + 1 = d.nlink) := by
  constructor
  · constructor
    · intro heq
      by_cases hcd : c.inodeType = .directory
      · by_cases hl : hasChildrenLoop (st.entries child) = true
        · exact ⟨hcd, (hasChildrenLoop_iff _).mp hl⟩
        · have hl' : hasChildrenLoop (st.entries child) = false := by
            cases hb : hasChildrenLoop (st.entries child)
            · rfl
            · exact absurd hb hl
          obtain ⟨st', hrun, -⟩ := unlink_run_emptydir hdir hfind hchild hcd hl' hne
          rw [hrun] at heq
          simp at heq
      · obtain ⟨st', hrun, -⟩ := unlink_run_nondir hdir hfind hchild hcd
        rw [hrun] at heq
        simp at heq
    · rintro ⟨hcd, hex⟩
      exact unlink_run_nonempty hdir hfind hchild hcd ((hasChildrenLoop_iff _).mpr hex)
  · intro hcd hall hd0
    obtain ⟨st', hrun, -, -, hj, hk⟩ :=
      unlink_run_emptydir hdir hfind hchild hcd (hasChildrenLoop_false_of_all_dots hall) hne
    refine ⟨st', hrun, by simpa using hk dir, ?_⟩
    have h2 : st'.inode dir = some { d with nlink := d.nlink - 1 } := by
      simpa [Ne.symm hne] using hj dir
    simp [nlinkOf, h2]
    omega

/-- Example state for C4: directory 1 (link count 3) holds the empty
directory 2 under "d"; 2 carries only its dot entries. -/
def exC4 : FsState :=
  ⟨0, [(1, ⟨4 <<< 24, 3, 1024⟩), (2, ⟨4 <<< 24, 2, 1024⟩)],
    [(1, [("d", 2)]), (2, [(".", 2), ("..", 1)])], 3⟩

/-- C4 witness: unlinking the empty directory at the example state. -/
theorem unlink_empty_dir_checks_witness :
    ∃ st', unlink exC4 1 "d" = .ok st' ∧
      st'.entries 1 = removeFirst (exC4.entries 1) "d" ∧
      nlinkOf st' 1 + 1 = 3 := by
  have h := unlink_empty_dir_checks exC4 1 2 ⟨4 <<< 24, 3, 1024⟩ ⟨4 <<< 24, 2, 1024⟩
    "d" (by decide) (by decide) (by decide) (by decide)
  simpa using h.2 (by decide) (by decide) (by decide)

@[simp]
theorem mode_nlink_upd (c : Inode) (n : Nat) :
    ({ c with nlink := n } : Inode).mode = c.mode := rfl

@[simp]
theorem nlink_mode_upd (c : Inode) (m : Nat) :
    ({ c with mode := m } : Inode).nlink = c.nlink := rfl

theorem inodeType_alloc (ty : InodeType) (n s : Nat) :
    Inode.inodeType ⟨ty.toCode * 2 ^ 24, n, s⟩ = ty := by
  have h1 : ty.toCode * 2 ^ 24 / 2 ^ 24 % 256 = ty.toCode := by
    rw [Nat.mul_div_cancel _ (by norm_num)]
    exact Nat.mod_eq_of_lt (by cases ty <;> simp [InodeType.toCode])
  show InodeType.ofCode (ty.toCode * 2 ^ 24 / 2 ^ 24 % 256) = ty
  rw [h1]
  cases ty <;> rfl

/-- The nine permission bits of the stored mode are exactly those of the
requested mode, whatever the allocator's default mode was. -/
theorem mask_keep_low (X m : Nat) :
    ((X &&& (2 ^ 32 - 1 - 0o777)) ||| (m &&& 0o777)) &&& 0o777 = m &&& 0o777 := by
  apply Nat.eq_of_testBit_eq
  intro i
  by_cases hi : i < 9
  · have h1 : Nat.testBit 4294966784 i = false := by
      interval_cases i <;> decide
    simp [Nat.testBit_land, Nat.testBit_lor, h1, Bool.and_assoc]
  · have h2 : Nat.testBit 0o777 i = false :=
      Nat.testBit_eq_false_of_lt
        (lt_of_lt_of_le (by norm_num)
          (Nat.pow_le_pow_right (by norm_num) (le_of_not_lt hi)))
    simp [Nat.testBit_land, Nat.testBit_lor, h2]

@[simp]
theorem inodeType_dirmode (n s : Nat) :
    Inode.inodeType ⟨67108864, n, s⟩ = InodeType.directory := by
  have h := inodeType_alloc .directory n s
  simpa [InodeType.toCode] using h

/-- C6: creating a directory yields a fresh child whose link count is
exactly 2, whose dot entry resolves to itself and double-dot entry to the
parent, both findable through the entry search, and whose stored mode
carries exactly the requested permission bits. -/
theorem create_directory_semantics (st : FsState) (parent : Nat) (p : Inode)
    (name : String) (mode : Nat)
    (hp : st.inode parent = some p)
    (hpd : p.inodeType = .directory)
    (hfresh : st.inode st.nextIno = none)
    (hfreshd : assocFind st.dirents st.nextIno = none) :
    ∃ st', create st parent name .directory mode = .ok (st', st.nextIno) ∧
      nlinkOf st' st.nextIno = 2 ∧
      dirFindEntry st' st.nextIno "." = some st.nextIno ∧
      dirFindEntry st' st.nextIno ".." = some parent ∧
      modeOf st' st.nextIno &&& 0o777 = mode &&& 0o777 := by
  have hpn : st.nextIno ≠ parent := by
    intro h
    rw [← h] at hp
    rw [hp] at hfresh
    cases hfresh
  have hp' : assocFind st.inodes parent = some p := hp
  have hfresh' : assocFind st.inodes st.nextIno = none := hfresh
  have hdot : ¬("." : String) = ".." := by decide
  simp [create, allocInode, getInodeRef, cloneRef, dirAddEntry, addEntry,
    linksCountInc, setNlink, setMode, FsState.updInode, FsState.inode,
    FsState.entries, assocFind, hpn, hp', hpd, hfresh', hfreshd, hdot,
    find_updAssoc, find_setAssoc_self, find_setAssoc_ne, inodeType_alloc,
    nlinkOf, modeOf, dirFindEntry, InodeType.toCode, Function.comp]
  have hlt : (67108864 &&& 4294966784 ||| mode &&& 511) < 2 ^ 32 :=
    Nat.or_lt_two_pow (lt_of_le_of_lt Nat.and_le_left (by norm_num))
      (lt_of_le_of_lt Nat.and_le_right (by norm_num))
  rw [show (4294967296 : Nat) = 2 ^ 32 by norm_num, Nat.mod_eq_of_lt hlt]
  have h := mask_keep_low 67108864 mode
  norm_num at h
  exact h

/-- C6 witness: creating "sub" with mode 0o755 under directory 1. -/
theorem create_directory_semantics_witness :
    ∃ st', create exC10 1 "sub" .directory 0o755 = .ok (st', 3) ∧
      nlinkOf st' 3 = 2 ∧ dirFindEntry st' 3 "." = some 3 ∧
      dirFindEntry st' 3 ".." = some 1 ∧
      modeOf st' 3 &&& 0o777 = 0o755 &&& 0o777 := by
  have h := create_directory_semantics exC10 1 ⟨4 <<< 24, 2, 1024⟩ "sub" 0o755
    (by decide) (by decide) (by decide) (by decide)
  simpa [exC10] using h

/-- Execution of `unlink` when the named entry is absent: the distinguished
not-found error from the entry search. -/
theorem unlink_run_absent {st : FsState} {dir : Nat} {d : Inode} {name : String}
    (hdir : st.inode dir = some d)
    (habs : dirFindEntry st dir name = none) :
    unlink st dir name = .error (.fail ⟨enoent, some "ext4_dir_find_entry"⟩) := by
  simp [unlink, getInodeRef, cloneRef, lookupEntry, hdir, habs]

theorem lookupEntry_ok {st : FsState} {dir : Nat} {name : String} {x : Nat}
    (h : dirFindEntry st dir name = some x) : lookupEntry st dir name = .ok x := by
  simp only [lookupEntry, h]

theorem getInodeRef_ok {st : FsState} {ino : Nat} {i : Inode}
    (h : st.inode ino = some i) : getInodeRef st ino = .ok i := by
  simp only [getInodeRef, h]

theorem cloneRef_ok {st : FsState} {ino : Nat} {i : Inode}
    (h : st.inode ino = some i) : cloneRef st ino = .ok i := by
  simp only [cloneRef, h]

theorem removeEntry_ok {st : FsState} {dir : Nat} {name : String} {x : Nat}
    (h : dirFindEntry st dir name = some x) :
    removeEntry st dir name =
      .ok { st with dirents := setAssoc st.dirents dir (removeFirst (st.entries dir) name) } := by
  simp only [removeEntry, h]

theorem addEntry_ok {st : FsState} {dir : Nat} (name : String) (child : Nat)
    {d : Inode} (h : st.inode dir = some d) (ht : d.inodeType = .directory) :
    addEntry st dir name child =
      .ok (linksCountInc
        { st with dirents := setAssoc st.dirents dir (st.entries dir ++ [(name, child)]) }
        child) := by
  simp [addEntry, dirAddEntry, h, ht]

/-- Execution of the post-cleanup part of `rename`: the run succeeds, the
moved entry resolves at the destination, the source name no longer
resolves, and every inode other than the two directories and the moved
inode is untouched. -/
theorem renameTail_exec {st₁ : FsState} {srcDir dstDir src : Nat} {s₁ dd₁ : Inode}
    {srcName dstName : String}
    (hfind₁ : dirFindEntry st₁ srcDir srcName = some src)
    (hsrc₁ : st₁.inode src = some s₁)
    (hdd₁ : st₁.inode dstDir = some dd₁)
    (hddt₁ : dd₁.inodeType = .directory)
    (huniq₁ : assocFind (removeFirst (st₁.entries srcDir) srcName) srcName = none)
    (hdst₁ : assocFind (st₁.entries dstDir) dstName = none)
    (hsdir : s₁.inodeType = .directory →
      (∃ x, dirFindEntry st₁ src ".." = some x) ∧ src ≠ srcDir ∧ src ≠ dstDir)
    (hsnames : srcDir = dstDir → srcName ≠ dstName) :
    ∃ st', renameTail st₁ srcDir srcName dstDir dstName = .ok st' ∧
      dirFindEntry st' dstDir dstName = some src ∧
      dirFindEntry st' srcDir srcName = none ∧
      (∀ j, j ≠ srcDir → j ≠ dstDir → j ≠ src → st'.inode j = st₁.inode j) := by
  simp only [FsState.entries] at hdst₁ huniq₁
  by_cases hdc : s₁.inodeType = .directory
  case neg =>
    have e1 : renameTail st₁ srcDir srcName dstDir dstName
        = (removeEntry st₁ srcDir srcName >>= fun st => addEntry st dstDir dstName src) := by
      simp only [renameTail, lookupEntry_ok hfind₁, okBind, getInodeRef_ok hsrc₁,
        if_neg hdc]
    have e2 := removeEntry_ok hfind₁
    have hdd₂ : (FsState.mk st₁.logBlockSize st₁.inodes
        (setAssoc st₁.dirents srcDir (removeFirst (st₁.entries srcDir) srcName))
        st₁.nextIno).inode dstDir = some dd₁ := hdd₁
    have e3 := addEntry_ok dstName src hdd₂ hddt₁
    have e4 : renameTail st₁ srcDir srcName dstDir dstName
        = addEntry (FsState.mk st₁.logBlockSize st₁.inodes
            (setAssoc st₁.dirents srcDir (removeFirst (st₁.entries srcDir) srcName))
            st₁.nextIno) dstDir dstName src := by
      rw [e1, e2]
      simp only [okBind]
    refine ⟨_, e4.trans e3, ?_, ?_, ?_⟩
    · by_cases hss : srcDir = dstDir
      · subst hss
        simp only [linksCountInc, dirents_updInode, dirFindEntry_updInode, dirFindEntry, FsState.entries,
          find_setAssoc_self, Option.getD_some]
        rw [assocFind_append_of_none (assocFind_removeFirst_none hdst₁)]
        simp [assocFind]
      · simp only [linksCountInc, dirents_updInode, dirFindEntry_updInode, dirFindEntry, FsState.entries,
          find_setAssoc_self, Option.getD_some,
          find_setAssoc_ne _ _ _ _ (fun h => hss h.symm)]
        rw [assocFind_append_of_none hdst₁]
        simp [assocFind]
    · by_cases hss : srcDir = dstDir
      · subst hss
        simp only [linksCountInc, dirents_updInode, dirFindEntry_updInode, dirFindEntry, FsState.entries,
          find_setAssoc_self, Option.getD_some]
        rw [assocFind_append_of_none huniq₁]
        simp [assocFind, Ne.symm (hsnames rfl)]
      · simp only [linksCountInc, dirents_updInode, dirFindEntry_updInode, dirFindEntry, FsState.entries,
          find_setAssoc_self, Option.getD_some, find_setAssoc_ne _ _ _ _ hss]
        exact huniq₁
    · intro j hj1 hj2 hj3
      simp [linksCountInc, FsState.inode, FsState.updInode, find_updAssoc, hj3]
  case pos =>
    obtain ⟨⟨x, hx⟩, hness, hnedd⟩ := hsdir hdc
    have hdd₁' : assocFind st₁.inodes dstDir = some dd₁ := hdd₁
    have e1 : renameTail st₁ srcDir srcName dstDir dstName
        = (removeEntry (linksCountInc (linksCountDec
              (setEntryIno st₁ src ".." dstDir) srcDir) dstDir) srcDir srcName >>=
            fun st => addEntry st dstDir dstName src) := by
      simp only [renameTail, lookupEntry_ok hfind₁, okBind, getInodeRef_ok hsrc₁,
        if_pos hdc, cloneRef_ok hsrc₁, lookupEntry_ok hx]
    have hfindC : dirFindEntry (linksCountInc (linksCountDec
        (setEntryIno st₁ src ".." dstDir) srcDir) dstDir) srcDir srcName = some src := by
      simp only [linksCountInc, linksCountDec, dirents_updInode, dirFindEntry_updInode, setEntryIno,
        dirFindEntry, FsState.entries, find_setAssoc_ne _ _ _ _ (Ne.symm hness)]
      exact hfind₁
    have e2 := removeEntry_ok hfindC
    have hvC : (linksCountInc (linksCountDec
        (setEntryIno st₁ src ".." dstDir) srcDir) dstDir).inode dstDir
        = some (if srcDir = dstDir
            then (⟨dd₁.mode, (dd₁.nlink - 1 + 1) % 65536, dd₁.size⟩ : Inode)
            else ⟨dd₁.mode, (dd₁.nlink + 1) % 65536, dd₁.size⟩) := by
      by_cases hsd2 : srcDir = dstDir
      · simp [linksCountInc, linksCountDec, setEntryIno, FsState.inode,
          FsState.updInode, find_updAssoc, hdd₁', hsd2]
      · simp [linksCountInc, linksCountDec, setEntryIno, FsState.inode,
          FsState.updInode, find_updAssoc, hdd₁', hsd2, Ne.symm hsd2]
    have htC : (if srcDir = dstDir
        then (⟨dd₁.mode, (dd₁.nlink - 1 + 1) % 65536, dd₁.size⟩ : Inode)
        else ⟨dd₁.mode, (dd₁.nlink + 1) % 65536, dd₁.size⟩).inodeType = .directory := by
      by_cases hsd2 : srcDir = dstDir <;> simp only [hsd2, if_true, if_false] <;>
        exact hddt₁
    have hvC2 : (FsState.mk
        (linksCountInc (linksCountDec (setEntryIno st₁ src ".." dstDir) srcDir)
          dstDir).logBlockSize
        (linksCountInc (linksCountDec (setEntryIno st₁ src ".." dstDir) srcDir)
          dstDir).inodes
        (setAssoc (linksCountInc (linksCountDec (setEntryIno st₁ src ".." dstDir)
            srcDir) dstDir).dirents srcDir
          (removeFirst ((linksCountInc (linksCountDec (setEntryIno st₁ src ".."
            dstDir) srcDir) dstDir).entries srcDir) srcName))
        (linksCountInc (linksCountDec (setEntryIno st₁ src ".." dstDir) srcDir)
          dstDir).nextIno).inode dstDir
        = some (if srcDir = dstDir
            then (⟨dd₁.mode, (dd₁.nlink - 1 + 1) % 65536, dd₁.size⟩ : Inode)
            else ⟨dd₁.mode, (dd₁.nlink + 1) % 65536, dd₁.size⟩) := hvC
    have e3 := addEntry_ok dstName src hvC2 htC
    have e4 : renameTail st₁ srcDir srcName dstDir dstName
        = addEntry (FsState.mk
            (linksCountInc (linksCountDec (setEntryIno st₁ src ".." dstDir) srcDir)
              dstDir).logBlockSize
            (linksCountInc (linksCountDec (setEntryIno st₁ src ".." dstDir) srcDir)
              dstDir).inodes
            (setAssoc (linksCountInc (linksCountDec (setEntryIno st₁ src ".."
                dstDir) srcDir) dstDir).dirents srcDir
              (removeFirst ((linksCountInc (linksCountDec (setEntryIno st₁ src ".."
                dstDir) srcDir) dstDir).entries srcDir) srcName))
            (linksCountInc (linksCountDec (setEntryIno st₁ src ".." dstDir) srcDir)
              dstDir).nextIno) dstDir dstName src := by
      rw [e1, e2]
      simp only [okBind]
    refine ⟨_, e4.trans e3, ?_, ?_, ?_⟩
    · by_cases hss : srcDir = dstDir
      · subst hss
        simp only [linksCountInc, linksCountDec, dirents_updInode, dirFindEntry_updInode, setEntryIno,
          dirFindEntry, FsState.entries, find_setAssoc_self, Option.getD_some,
          find_setAssoc_ne _ _ _ _ (Ne.symm hness)]
        rw [assocFind_append_of_none (assocFind_removeFirst_none hdst₁)]
        simp [assocFind]
      · simp only [linksCountInc, linksCountDec, dirents_updInode, dirFindEntry_updInode, setEntryIno,
          dirFindEntry, FsState.entries, find_setAssoc_self, Option.getD_some,
          find_setAssoc_ne _ _ _ _ (fun h => hss h.symm),
          find_setAssoc_ne _ _ _ _ (Ne.symm hnedd)]
        rw [assocFind_append_of_none hdst₁]
        simp [assocFind]
    · by_cases hss : srcDir = dstDir
      · subst hss
        simp only [linksCountInc, linksCountDec, dirents_updInode, dirFindEntry_updInode, setEntryIno,
          dirFindEntry, FsState.entries, find_setAssoc_self, Option.getD_some,
          find_setAssoc_ne _ _ _ _ (Ne.symm hness)]
        rw [assocFind_append_of_none huniq₁]
        simp [assocFind, Ne.symm (hsnames rfl)]
      · simp only [linksCountInc, linksCountDec, dirents_updInode, dirFindEntry_updInode, setEntryIno,
          dirFindEntry, FsState.entries, find_setAssoc_self, Option.getD_some,
          find_setAssoc_ne _ _ _ _ hss, find_setAssoc_ne _ _ _ _ (Ne.symm hness)]
        exact huniq₁
    · intro j hj1 hj2 hj3
      simp [linksCountInc, linksCountDec, setEntryIno, FsState.inode,
        FsState.updInode, find_updAssoc, hj1, hj2, hj3]

/-- C7: after a successful rename the moved entry resolves at the
destination name and the source name fails with not-found; a pre-existing
destination entry is unlinked first (its inode ends up freed), the
not-found error from that cleanup step is suppressed, and any other
cleanup error aborts the rename with that same error. -/
theorem rename_semantics (st : FsState) (srcDir dstDir src : Nat)
    (sd dd s : Inode) (srcName dstName : String)
    (hsd : st.inode srcDir = some sd)
    (hdd : st.inode dstDir = some dd)
    (hddt : dd.inodeType = .directory)
    (hfind : dirFindEntry st srcDir srcName = some src)
    (hsrc : st.inode src = some s)
    (huniq : assocFind (removeFirst (st.entries srcDir) srcName) srcName = none)
    (hsdirok : s.inodeType = .directory →
      (∃ x, dirFindEntry st src ".." = some x) ∧ src ≠ srcDir ∧ src ≠ dstDir)
    (hsnames : srcDir = dstDir → srcName ≠ dstName) :
    (dirFindEntry st dstDir dstName = none →
      ∃ st', rename st srcDir srcName dstDir dstName = .ok st' ∧
        dirFindEntry st' dstDir dstName = some src ∧
        lookupEntry st' srcDir srcName
          = .error (.fail ⟨enoent, some "ext4_dir_find_entry"⟩)) ∧
    (∀ e : Ext4Error, unlink st dstDir dstName = .error (.fail e) →
      e.code ≠ enoent →
      rename st srcDir srcName dstDir dstName = .error (.fail e)) ∧
    (∀ dtgt dt, dirFindEntry st dstDir dstName = some dtgt →
      st.inode dtgt = some dt → dt.inodeType ≠ .directory →
      srcDir ≠ dstDir → dtgt ≠ src → dtgt ≠ srcDir → dtgt ≠ dstDir →
      assocFind (removeFirst (st.entries dstDir) dstName) dstName = none →
      ∃ st', rename st srcDir srcName dstDir dstName = .ok st' ∧
        dirFindEntry st' dstDir dstName = some src ∧
        lookupEntry st' srcDir srcName
          = .error (.fail ⟨enoent, some "ext4_dir_find_entry"⟩) ∧
        st'.inode dtgt = none) := by
  refine ⟨?_, ?_, ?_⟩
  · intro habs
    have hu := unlink_run_absent hdd habs
    have habs' : assocFind (st.entries dstDir) dstName = none := habs
    have hr : rename st srcDir srcName dstDir dstName
        = renameTail st srcDir srcName dstDir dstName := by
      simp [rename, getInodeRef_ok hsd, getInodeRef_ok hdd, hu, enoent]
    obtain ⟨st', h1, h2, h3, -⟩ :=
      renameTail_exec hfind hsrc hdd hddt huniq habs' hsdirok hsnames
    exact ⟨st', hr.trans h1, h2, by simp only [lookupEntry, h3]⟩
  · intro e hu hne
    simp [rename, getInodeRef_ok hsd, getInodeRef_ok hdd, hu, hne]
  · intro dtgt dt hfd hdt hdtnd hneq hds hdsrc hddst hdstuniq
    obtain ⟨st₁, hu, hlbs, hni, hj, hk⟩ := unlink_run_nondir hdd hfd hdt hdtnd
    have hr : rename st srcDir srcName dstDir dstName
        = renameTail st₁ srcDir srcName dstDir dstName := by
      simp [rename, getInodeRef_ok hsd, getInodeRef_ok hdd, hu]
    have hesrc : st₁.entries srcDir = st.entries srcDir := by
      simpa [hneq] using hk srcDir
    have hfind₁ : dirFindEntry st₁ srcDir srcName = some src := by
      simp only [dirFindEntry, hesrc]
      exact hfind
    have hsrc₁ : st₁.inode src = some s := by
      rw [hj src, if_neg (Ne.symm hds)]
      exact hsrc
    have hdd₁ : st₁.inode dstDir = some dd := by
      rw [hj dstDir, if_neg (Ne.symm hddst)]
      exact hdd
    have huniq₁ : assocFind (removeFirst (st₁.entries srcDir) srcName) srcName
        = none := by
      rw [hesrc]
      exact huniq
    have hdst₁ : assocFind (st₁.entries dstDir) dstName = none := by
      have he : st₁.entries dstDir = removeFirst (st.entries dstDir) dstName := by
        simpa using hk dstDir
      rw [he]
      exact hdstuniq
    have hsdir₁ : s.inodeType = .directory →
        (∃ x, dirFindEntry st₁ src ".." = some x) ∧ src ≠ srcDir ∧ src ≠ dstDir := by
      intro h
      obtain ⟨⟨x, hx⟩, h2, h3⟩ := hsdirok h
      refine ⟨⟨x, ?_⟩, h2, h3⟩
      have he : st₁.entries src = st.entries src := by
        simpa [show src ≠ dstDir from h3] using hk src
      simp only [dirFindEntry, he]
      exact hx
    obtain ⟨st', h1, h2, h3, hfr⟩ :=
      renameTail_exec hfind₁ hsrc₁ hdd₁ hddt huniq₁ hdst₁ hsdir₁ hsnames
    refine ⟨st', hr.trans h1, h2, by simp only [lookupEntry, h3], ?_⟩
    rw [hfr dtgt hdsrc hddst hds, hj dtgt, if_pos rfl]

/-- Example state for C7: directory 1 holds "a" naming regular file 4;
directory 2 is empty. -/
def exC7 : FsState :=
  ⟨0, [(1, ⟨4 <<< 24, 2, 0⟩), (2, ⟨4 <<< 24, 2, 0⟩), (4, ⟨8 <<< 24, 1, 7⟩)],
    [(1, [("a", 4)]), (2, [])], 5⟩

/-- C7 witness: moving "a" from directory 1 to "b" in directory 2. -/
theorem rename_semantics_witness :
    ∃ st', rename exC7 1 "a" 2 "b" = .ok st' ∧
      dirFindEntry st' 2 "b" = some 4 ∧
      lookupEntry st' 1 "a"
        = .error (.fail ⟨enoent, some "ext4_dir_find_entry"⟩) := by
  have h := rename_semantics exC7 1 2 4 ⟨4 <<< 24, 2, 0⟩ ⟨4 <<< 24, 2, 0⟩
    ⟨8 <<< 24, 1, 7⟩ "a" "b" (by decide) (by decide) (by decide) (by decide)
    (by decide) (by decide) (fun hcon => absurd hcon (by decide))
    (fun hcon => absurd hcon (by decide))
  exact h.1 (by decide)

/-- The state of one inode's file content as the file I/O engine of
inode/file.rs sees it: the superblock's log block size, the inode's type,
byte size and 60-byte inline area (`ext4_inode.blocks`), the extents flag,
the logical-to-physical block map, the block allocator's cursors, and the
block device's byte store. -/
structure FileState where
  logBlockSize : Nat
  itype : InodeType
  fileSize : Nat
  blockMap : List (Nat × Nat)
  nextLogical : Nat
  nextPhys : Nat
  inlineData : List Nat
  extentsFlag : Bool
  disk : List (Nat × Nat)
deriving Repr, DecidableEq

/-- Mirror of `get_block_size` for the file model. -/
def FileState.blockSize (st : FileState) : Nat :=
  1024 * 2 ^ st.logBlockSize

/-- Modelled from the spec: `ext4_fs_get_inode_dblk_idx` resolves a logical
block to its physical block, reporting 0 for a hole. -/
def getInodeFblock (st : FileState) (b : Nat) : Nat :=
  (assocFind st.blockMap b).getD 0

/-- Modelled from the spec: `ext4_fs_init_inode_dblk_idx` resolves a logical
block inside the file, allocating a physical block when the position is a
hole. -/
def initInodeFblock (st : FileState) (b : Nat) : FileState × Nat :=
  match assocFind st.blockMap b with
  | some f => (st, f)
  | none =>
    let st1 := { st with blockMap := (b, st.nextPhys) :: st.blockMap, nextPhys := st.nextPhys + 1 }
    (st1, st.nextPhys)

/-- Modelled from the spec: `ext4_fs_append_inode_dblk` allocates a physical
block for the next logical block past the end and reports both numbers. -/
def appendInodeFblock (st : FileState) : FileState × Nat × Nat :=
  let st1 := { st with blockMap := (st.nextLogical, st.nextPhys) :: st.blockMap, nextLogical := st.nextLogical + 1, nextPhys := st.nextPhys + 1 }
  (st1, st.nextPhys, st.nextLogical)

/-- Modelled from the spec: `ext4_fs_inode_blocks_init` resets the inode's
block-mapping state. -/
def inodeBlocksInit (st : FileState) : FileState :=
  { st with blockMap := [], nextLogical := 0, extentsFlag := true }

/-- One byte of the block device (unwritten bytes read as 0). -/
def diskByte (st : FileState) (a : Nat) : Nat :=
  (assocFind st.disk a).getD 0

/-- A run of device bytes starting at a byte address; the byte-range reads
`ext4_block_readbytes` and `ext4_blocks_get_direct` both deliver this. -/
def diskBytes (st : FileState) : Nat → Nat → List Nat
  | _, 0 => []
  | a, len + 1 => diskByte st a :: diskBytes st (a + 1) len

/-- Write a run of bytes to the block device at a byte address; the
byte-range writes `ext4_block_writebytes` and `ext4_blocks_set_direct` both
perform this. -/
def writeDiskBytes : FileState → Nat → List Nat → FileState
  | st, _, [] => st
  | st, a, b :: rest =>
    writeDiskBytes { st with disk := setAssoc st.disk a b } (a + 1) rest

/-- One byte of the inode's inline 60-byte area. -/
def inlineByte (st : FileState) (i : Nat) : Nat :=
  st.inlineData.getD i 0

/-- A run of bytes out of the inode's inline area. -/
def inlineBytes (st : FileState) : Nat → Nat → List Nat
  | _, 0 => []
  | a, len + 1 => inlineByte st a :: inlineBytes st (a + 1) len

/-- The flush closure of `read_at`: an empty pending run reads nothing; a
non-empty one is taken from the output buffer and filled with one bulk
read of the pending physical blocks. -/
def readFlush (st : FileState) (bs fbS fbC rem : Nat) : List Nat :=
  if fbC = 0 then [] else diskBytes st (fbS * bs) (min (fbC * bs) rem)

/-- The interior loop of `read_at` over the full blocks, coalescing
consecutive physical blocks into maximal runs and zero-filling holes;
returns the bytes produced and the output space left. -/
def readLoop (st : FileState) (bs : Nat) :
    List Nat → Nat → Nat → Nat → List Nat × Nat
  | [], rem, fbS, fbC =>
    let chunk := readFlush st bs fbS fbC rem
    (chunk, rem - chunk.length)
  | b :: rest, rem, fbS, fbC =>
    let fblock := getInodeFblock st b
    if fblock ≠ fbS + fbC then
      let chunk := readFlush st bs fbS fbC rem
      let rem := rem - chunk.length
      if fblock = 0 then
        let zeros := List.replicate (min bs rem) 0
        let (out, rem') := readLoop st bs rest (rem - zeros.length) fblock 0
        (chunk ++ zeros ++ out, rem')
      else
        let (out, rem') := readLoop st bs rest rem fblock 1
        (chunk ++ out, rem')
    else
      if fblock = 0 then
        let zeros := List.replicate (min bs rem) 0
        let (out, rem') := readLoop st bs rest (rem - zeros.length) fbS fbC
        (zeros ++ out, rem')
      else
        let (out, rem') := readLoop st bs rest rem fbS (fbC + 1)
        (out, rem')

/-- Mirror of `InodeRef::read_at` in inode/file.rs, returning the bytes
delivered into the caller's buffer.  The failing `assert!` is the crash
outcome; the write-back guard has no observable effect in the model. -/
def readAt (st : FileState) (bufLen pos : Nat) : Res (List Nat) :=
  let fileSize := st.fileSize
  let bs := st.blockSize
  if pos ≥ fileSize ∨ bufLen = 0 then .ok []
  else
    let toBeRead := min bufLen (fileSize - pos)
    let inlineChunk :=
      if st.itype = .symlink ∧ fileSize < 60 then
        inlineBytes st pos (min (fileSize - pos) toBeRead)
      else []
    let rem0 := toBeRead - inlineChunk.length
    let blockStart := pos / bs
    let blockEnd := (min (pos + rem0) fileSize) / bs
    let offset := pos % bs
    let first :=
      if offset > 0 then
        let len := min (bs - offset) rem0
        let fblock := getInodeFblock st blockStart
        ((if fblock ≠ 0 then diskBytes st (fblock * bs + offset) len
          else List.replicate len 0), rem0 - len, blockStart + 1)
      else ([], rem0, blockStart)
    let firstChunk := first.1
    let rem1 := first.2.1
    let blockStart := first.2.2
    let loopRes := readLoop st bs (List.range' blockStart (blockEnd - blockStart)) rem1 0 0
    let loopChunk := loopRes.1
    let rem2 := loopRes.2
    if bs ≤ rem2 then .error .crash
    else
      let tailChunk :=
        if rem2 ≠ 0 then
          let fblock := getInodeFblock st blockEnd
          if fblock ≠ 0 then diskBytes st (fblock * bs) rem2
          else List.replicate rem2 0
        else []
      .ok (inlineChunk ++ firstChunk ++ loopChunk ++ tailChunk)

/-- Mirror of `InodeRef::truncate`: the engine's inode-truncate primitive
shrinks the content; the write-back window has no observable effect. -/
def truncateFile (st : FileState) (size : Nat) : Res FileState :=
  .ok { st with fileSize := min st.fileSize size }

/-- Mirror of `InodeRef::set_len` in inode/file.rs: shrinking truncates;
growing is the `todo!()` branch, a Rust panic. -/
def setLen (st : FileState) (len : Nat) : Res FileState :=
  if len < st.fileSize then truncateFile st len
  else if len > st.fileSize then .error .crash
  else .ok st

/-- The `get_fblock` closure of `write_at`: blocks inside the current block
count are resolved (initializing holes), blocks past it are appended, and a
mismatch with the expected appended index is the failing `assert_eq!`. -/
def writeGetFblock (st : FileState) (blockCount b : Nat) : Res (FileState × Nat) :=
  if b < blockCount then .ok (initInodeFblock st b)
  else
    let r := appendInodeFblock st
    if b ≠ r.2.2 then .error .crash
    else .ok (r.1, r.2.1)

/-- The interior loop of `write_at` over the full blocks with the same
run coalescing as the read path, flushing each maximal run with one bulk
write. -/
def writeLoop (bs blockCount : Nat) :
    FileState → List Nat → List Nat → Nat → Nat → Res (FileState × List Nat)
  | st, [], buf, fbS, fbC =>
    if fbC = 0 then .ok (st, buf)
    else .ok (writeDiskBytes st (fbS * bs) (buf.take (fbC * bs)), buf.drop (fbC * bs))
  | st, b :: rest, buf, fbS, fbC => do
    let r ← writeGetFblock st blockCount b
    let st := r.1
    let fblock := r.2
    if fblock ≠ fbS + fbC then
      let st := if fbC = 0 then st
        else writeDiskBytes st (fbS * bs) (buf.take (fbC * bs))
      let buf := if fbC = 0 then buf else buf.drop (fbC * bs)
      writeLoop bs blockCount st rest buf fblock 1
    else
      writeLoop bs blockCount st rest buf fbS (fbC + 1)

/-- Mirror of `InodeRef::write_at` in inode/file.rs.  An offset beyond the
end of file reaches `set_len`, whose growing branch is unimplemented; the
appended-block index check is the failing `assert_eq!`. -/
def writeAt (st : FileState) (buf : List Nat) (pos : Nat) : Res (FileState × Nat) := do
  let fileSize := st.fileSize
  let bs := st.blockSize
  let blockCount := (fileSize + bs - 1) / bs
  let st ← if pos > fileSize then setLen st pos else .ok st
  if buf.length = 0 then return (st, 0)
  let toBeWritten := buf.length
  let blockStart := pos / bs
  let blockEnd := (pos + buf.length) / bs
  let offset := pos % bs
  let r1 ←
    if offset > 0 then do
      let chunk := buf.take (min (bs - offset) buf.length)
      let r ← writeGetFblock st blockCount blockStart
      .ok (writeDiskBytes r.1 (r.2 * bs + offset) chunk,
        buf.drop chunk.length, blockStart + 1)
    else .ok (st, buf, blockStart)
  let st := r1.1
  let buf := r1.2.1
  let blockStart := r1.2.2
  let r2 ← writeLoop bs blockCount st (List.range' blockStart (blockEnd - blockStart)) buf 0 0
  let st := r2.1
  let buf := r2.2
  if bs ≤ buf.length then throw .crash
  let st ←
    if buf.length ≠ 0 then do
      let r ← writeGetFblock st blockCount blockEnd
      .ok (writeDiskBytes r.1 (r.2 * bs) buf)
    else .ok st
  let st := if pos + toBeWritten > fileSize then { st with fileSize := pos + toBeWritten } else st
  .ok (st, toBeWritten)

/-- The inode state after the inline branch of `set_symlink`: the target is
copied over the front of the inode's 60-byte block area, the extents flag is
cleared and the size records the target length. -/
def symlinkInlineState (st : FileState) (target : List Nat) : FileState :=
  { st with
    inlineData := target ++ st.inlineData.drop target.length,
    extentsFlag := false,
    fileSize := target.length }

/-- Mirror of `InodeRef::set_symlink` in inode/file.rs: a target over one
block is the name-too-long error; a target under the 60-byte inline area is
stored in the inode body with the extents flag cleared; anything else goes
through one appended block; every success records the target length as the
inode size. -/
def setSymlink (st : FileState) (target : List Nat) : Res FileState :=
  let bs := st.blockSize
  if target.length > bs then .error (.fail ⟨enametoolong, some "symlink too long"⟩)
  else
    if target.length < 4 * 15 then
      .ok (symlinkInlineState st target)
    else
      let st1 := inodeBlocksInit st
      let r := appendInodeFblock st1
      let st2 := writeDiskBytes r.1 (r.2.1 * bs) target
      .ok { st2 with fileSize := target.length }

/-- The byte a correct read delivers at file offset `a`: the byte of the
mapped physical block at that offset, or 0 inside a hole. -/
def expectedByte (st : FileState) (a : Nat) : Nat :=
  if getInodeFblock st (a / st.blockSize) = 0 then 0
  else diskByte st (getInodeFblock st (a / st.blockSize) * st.blockSize + a % st.blockSize)

/-- The bytes a correct read delivers for the range `[a, a + len)`. -/
def expectedBytes (st : FileState) : Nat → Nat → List Nat
  | _, 0 => []
  | a, len + 1 => expectedByte st a :: expectedBytes st (a + 1) len

/-- The content of one whole logical block: device bytes when mapped,
zeros in a hole. -/
def blockBytes (st : FileState) (b : Nat) : List Nat :=
  if getInodeFblock st b = 0 then List.replicate st.blockSize 0
  else diskBytes st (getInodeFblock st b * st.blockSize) st.blockSize

/-- The content of `n` consecutive whole logical blocks starting at `b`. -/
def blocksRun (st : FileState) : Nat → Nat → List Nat
  | _, 0 => []
  | b, n + 1 => blockBytes st b ++ blocksRun st (b + 1) n

theorem diskBytes_length (st : FileState) :
    ∀ (len a : Nat), (diskBytes st a len).length = len := by
  intro len
  induction len with
  | zero => intro a; rfl
  | succ n ih => intro a; simp [diskBytes, ih]

theorem expectedBytes_length (st : FileState) :
    ∀ (len a : Nat), (expectedBytes st a len).length = len := by
  intro len
  induction len with
  | zero => intro a; rfl
  | succ n ih => intro a; simp [expectedBytes, ih]

theorem inlineBytes_length (st : FileState) :
    ∀ (len a : Nat), (inlineBytes st a len).length = len := by
  intro len
  induction len with
  | zero => intro a; rfl
  | succ n ih => intro a; simp [inlineBytes, ih]

theorem diskBytes_append (st : FileState) :
    ∀ (m k a : Nat), diskBytes st a (m + k) = diskBytes st a m ++ diskBytes st (a + m) k := by
  intro m
  induction m with
  | zero => intro k a; simp [diskBytes]
  | succ n ih =>
    intro k a
    have h1 : n + 1 + k = (n + k) + 1 := by omega
    rw [h1]
    show diskByte st a :: diskBytes st (a + 1) (n + k) = _
    rw [ih k (a + 1)]
    have h2 : a + 1 + n = a + (n + 1) := by omega
    rw [h2]
    rfl

theorem expectedBytes_append (st : FileState) :
    ∀ (m k a : Nat),
      expectedBytes st a (m + k) = expectedBytes st a m ++ expectedBytes st (a + m) k := by
  intro m
  induction m with
  | zero => intro k a; simp [expectedBytes]
  | succ n ih =>
    intro k a
    have h1 : n + 1 + k = (n + k) + 1 := by omega
    rw [h1]
    show expectedByte st a :: expectedBytes st (a + 1) (n + k) = _
    rw [ih k (a + 1)]
    have h2 : a + 1 + n = a + (n + 1) := by omega
    rw [h2]
    rfl

theorem expectedBytes_getD (st : FileState) :
    ∀ (len a i : Nat), i < len →
      (expectedBytes st a len).getD i 0 = expectedByte st (a + i) := by
  intro len
  induction len with
  | zero => intro a i h; omega
  | succ n ih =>
    intro a i h
    cases i with
    | zero => simp [expectedBytes]
    | succ j =>
      show (expectedBytes st (a + 1) n).getD j 0 = _
      rw [ih (a + 1) j (by omega)]
      have : a + 1 + j = a + (j + 1) := by omega
      rw [this]

theorem inlineBytes_of_append (st : FileState) :
    ∀ (l pre rest : List Nat), st.inlineData = pre ++ (l ++ rest) →
      inlineBytes st pre.length l.length = l := by
  intro l
  induction l with
  | nil => intro pre rest h; rfl
  | cons x xs ih =>
    intro pre rest h
    show inlineByte st pre.length :: inlineBytes st (pre.length + 1) xs.length = x :: xs
    have hx : inlineByte st pre.length = x := by
      simp only [inlineByte, h, List.cons_append]
      rw [List.getD_append_right pre (x :: (xs ++ rest)) 0 pre.length (le_refl _)]
      simp
    have hxs : inlineBytes st (pre.length + 1) xs.length = xs := by
      have happ : st.inlineData = (pre ++ [x]) ++ (xs ++ rest) := by
        simp [h]
      have := ih (pre ++ [x]) rest happ
      simpa using this
    rw [hx, hxs]

theorem expectedBytes_one_block (st : FileState) (b : Nat) :
    ∀ (len off : Nat), off + len ≤ st.blockSize →
      expectedBytes st (b * st.blockSize + off) len =
        if getInodeFblock st b = 0 then List.replicate len 0
        else diskBytes st (getInodeFblock st b * st.blockSize + off) len := by
  intro len
  induction len with
  | zero =>
    intro off h
    by_cases hfb : getInodeFblock st b = 0 <;> simp [hfb, expectedBytes, diskBytes]
  | succ n ih =>
    intro off h
    have hbs : 0 < st.blockSize := by
      simp only [FileState.blockSize]
      positivity
    have hoff : off < st.blockSize := by omega
    have hdiv : (b * st.blockSize + off) / st.blockSize = b := by
      rw [Nat.mul_comm b st.blockSize, Nat.mul_add_div hbs, Nat.div_eq_of_lt hoff]
      omega
    have hmod : (b * st.blockSize + off) % st.blockSize = off := by
      rw [Nat.mul_comm b st.blockSize, Nat.mul_add_mod, Nat.mod_eq_of_lt hoff]
    have hstep : expectedBytes st (b * st.blockSize + off) (n + 1) =
        expectedByte st (b * st.blockSize + off) ::
          expectedBytes st (b * st.blockSize + (off + 1)) n := by
      show _ = expectedByte st (b * st.blockSize + off) ::
          expectedBytes st (b * st.blockSize + off + 1) n
      rfl
    rw [hstep, ih (off + 1) (by omega)]
    by_cases hfb : getInodeFblock st b = 0
    · simp [expectedByte, hdiv, hfb, List.replicate]
    · simp only [expectedByte, hdiv, hmod, hfb, if_neg hfb, if_false]
      show diskByte st (getInodeFblock st b * st.blockSize + off) ::
          diskBytes st (getInodeFblock st b * st.blockSize + (off + 1)) n = _
      have : getInodeFblock st b * st.blockSize + (off + 1) =
          getInodeFblock st b * st.blockSize + off + 1 := by omega
      rw [this]
      rfl

theorem blocksRun_eq (st : FileState) :
    ∀ (n b : Nat), blocksRun st b n = expectedBytes st (b * st.blockSize) (n * st.blockSize) := by
  intro n
  induction n with
  | zero => intro b; simp [blocksRun, expectedBytes]
  | succ m ih =>
    intro b
    show blockBytes st b ++ blocksRun st (b + 1) m = _
    rw [ih (b + 1)]
    have hone := expectedBytes_one_block st b st.blockSize 0 (by omega)
    simp only [Nat.add_zero] at hone
    have hbb : blockBytes st b = expectedBytes st (b * st.blockSize) st.blockSize := by
      rw [hone, blockBytes]
    rw [hbb]
    have hsz : (m + 1) * st.blockSize = st.blockSize + m * st.blockSize := by ring
    rw [hsz, expectedBytes_append st st.blockSize (m * st.blockSize) (b * st.blockSize)]
    have : b * st.blockSize + st.blockSize = (b + 1) * st.blockSize := by ring
    rw [this]

theorem readFlush_eq (st : FileState) (bs fbS fbC rem : Nat) (h : fbC * bs ≤ rem) :
    readFlush st bs fbS fbC rem = diskBytes st (fbS * bs) (fbC * bs) := by
  by_cases hc : fbC = 0
  · subst hc; simp [readFlush, diskBytes]
  · simp [readFlush, if_neg hc, min_eq_left h]

theorem readLoop_spec (st : FileState) :
    ∀ (n b rem fbS fbC : Nat), (fbC + n) * st.blockSize ≤ rem →
      readLoop st st.blockSize (List.range' b n) rem fbS fbC =
        (diskBytes st (fbS * st.blockSize) (fbC * st.blockSize) ++ blocksRun st b n,
         rem - (fbC + n) * st.blockSize) := by
  have hbs : 0 < st.blockSize := by
    simp only [FileState.blockSize]; positivity
  intro n
  induction n with
  | zero =>
    intro b rem fbS fbC h
    have hx : (fbC + 0) * st.blockSize = fbC * st.blockSize := by ring
    have hle : fbC * st.blockSize ≤ rem := by omega
    have hr : List.range' b 0 = [] := rfl
    rw [hr]
    show (let chunk := readFlush st st.blockSize fbS fbC rem
          (chunk, rem - chunk.length)) = _
    rw [readFlush_eq st st.blockSize fbS fbC rem hle]
    simp only [diskBytes_length, blocksRun, List.append_nil, Prod.mk.injEq]
    exact ⟨trivial, by omega⟩
  | succ m ih =>
    intro b rem fbS fbC h
    have hexp : (fbC + (m + 1)) * st.blockSize
        = fbC * st.blockSize + m * st.blockSize + st.blockSize := by ring
    rw [List.range'_succ]
    simp only [readLoop]
    by_cases hdis : getInodeFblock st b = fbS + fbC
    · rw [if_neg (fun hc => hc hdis)]
      by_cases hhole : getInodeFblock st b = 0
      · have hS0 : fbS = 0 := by omega
        have hC0 : fbC = 0 := by omega
        subst hS0; subst hC0
        rw [if_pos hhole]
        simp only [List.length_replicate]
        have hz : min st.blockSize rem = st.blockSize := min_eq_left (by omega)
        rw [hz]
        have hx2 : (0 + m) * st.blockSize = m * st.blockSize := by ring
        rw [ih (b + 1) (rem - st.blockSize) 0 0 (by omega)]
        simp only [Nat.zero_mul, diskBytes, List.nil_append, Prod.mk.injEq]
        refine ⟨?_, by omega⟩
        show List.replicate st.blockSize 0 ++ blocksRun st (b + 1) m = blocksRun st b (m + 1)
        rw [show blocksRun st b (m + 1) = blockBytes st b ++ blocksRun st (b + 1) m from rfl]
        rw [show blockBytes st b = List.replicate st.blockSize 0 from by simp [blockBytes, hhole]]
      · rw [if_neg hhole]
        have hx2 : (fbC + 1 + m) * st.blockSize
            = fbC * st.blockSize + m * st.blockSize + st.blockSize := by ring
        rw [ih (b + 1) rem fbS (fbC + 1) (by omega)]
        simp only [Prod.mk.injEq]
        refine ⟨?_, by omega⟩
        have hd : diskBytes st (fbS * st.blockSize) ((fbC + 1) * st.blockSize)
            = diskBytes st (fbS * st.blockSize) (fbC * st.blockSize) ++
              diskBytes st (fbS * st.blockSize + fbC * st.blockSize) st.blockSize := by
          rw [show (fbC + 1) * st.blockSize = fbC * st.blockSize + st.blockSize from by ring]
          exact diskBytes_append st (fbC * st.blockSize) st.blockSize (fbS * st.blockSize)
        rw [hd]
        rw [show blocksRun st b (m + 1) = blockBytes st b ++ blocksRun st (b + 1) m from rfl]
        rw [show blockBytes st b
            = diskBytes st (fbS * st.blockSize + fbC * st.blockSize) st.blockSize from by
          simp only [blockBytes, hdis]
          rw [if_neg (show ¬(fbS + fbC = 0) from hdis ▸ hhole)]
          rw [show (fbS + fbC) * st.blockSize = fbS * st.blockSize + fbC * st.blockSize from by ring]]
        simp [List.append_assoc]
    · rw [if_pos hdis]
      have hle : fbC * st.blockSize ≤ rem := by omega
      rw [readFlush_eq st st.blockSize fbS fbC rem hle]
      simp only [diskBytes_length, List.length_replicate]
      by_cases hhole : getInodeFblock st b = 0
      · rw [if_pos hhole]
        have hz : min st.blockSize (rem - fbC * st.blockSize) = st.blockSize :=
          min_eq_left (by omega)
        rw [hz]
        have hx2 : (0 + m) * st.blockSize = m * st.blockSize := by ring
        rw [hhole]
        rw [ih (b + 1) (rem - fbC * st.blockSize - st.blockSize) 0 0 (by omega)]
        simp only [Nat.zero_mul, diskBytes, List.nil_append, Prod.mk.injEq]
        refine ⟨?_, by omega⟩
        rw [show blocksRun st b (m + 1) = blockBytes st b ++ blocksRun st (b + 1) m from rfl]
        rw [show blockBytes st b = List.replicate st.blockSize 0 from by simp [blockBytes, hhole]]
        simp [List.append_assoc]
      · rw [if_neg hhole]
        have hx2 : (1 + m) * st.blockSize = m * st.blockSize + st.blockSize := by ring
        rw [ih (b + 1) (rem - fbC * st.blockSize) (getInodeFblock st b) 1 (by omega)]
        simp only [Prod.mk.injEq]
        refine ⟨?_, by omega⟩
        rw [show blocksRun st b (m + 1) = blockBytes st b ++ blocksRun st (b + 1) m from rfl]
        rw [show blockBytes st b
            = diskBytes st (getInodeFblock st b * st.blockSize) (1 * st.blockSize) from by
          simp only [blockBytes, if_neg hhole, Nat.one_mul]]

theorem blockSize_pos (st : FileState) : 0 < st.blockSize := by
  simp only [FileState.blockSize]; positivity

theorem chunkIf_eq (st : FileState) (b off len : Nat) (h : off + len ≤ st.blockSize) :
    (if getInodeFblock st b ≠ 0
      then diskBytes st (getInodeFblock st b * st.blockSize + off) len
      else List.replicate len 0) = expectedBytes st (b * st.blockSize + off) len := by
  rw [expectedBytes_one_block st b len off h]
  by_cases hfb : getInodeFblock st b = 0 <;> simp [hfb]

theorem tailIf_eq (st : FileState) (q r : Nat) (h : r ≤ st.blockSize) :
    (if r ≠ 0 then
        (if getInodeFblock st q ≠ 0
          then diskBytes st (getInodeFblock st q * st.blockSize) r
          else List.replicate r 0)
      else []) = expectedBytes st (q * st.blockSize) r := by
  by_cases hr0 : r = 0
  · subst hr0; simp [expectedBytes]
  · rw [if_pos hr0]
    have h2 := chunkIf_eq st q 0 r (by omega)
    simpa using h2

theorem readAt_eq_expected (st : FileState) (bufLen pos : Nat)
    (hpos : pos < st.fileSize) (hbuf : 0 < bufLen)
    (hni : ¬(st.itype = InodeType.symlink ∧ st.fileSize < 60)) :
    readAt st bufLen pos
      = .ok (expectedBytes st pos (min bufLen (st.fileSize - pos))) := by
  have hbs : 0 < st.blockSize := blockSize_pos st
  have hL1 : min bufLen (st.fileSize - pos) ≤ st.fileSize - pos := Nat.min_le_right _ _
  have hE : pos + min bufLen (st.fileSize - pos) ≤ st.fileSize := by omega
  have hnor : ¬(pos ≥ st.fileSize ∨ bufLen = 0) := by omega
  have hdm1 := Nat.div_add_mod pos st.blockSize
  have hdm2 := Nat.div_add_mod (pos + min bufLen (st.fileSize - pos)) st.blockSize
  have hm1 : pos % st.blockSize < st.blockSize := Nat.mod_lt _ hbs
  have hm2 : (pos + min bufLen (st.fileSize - pos)) % st.blockSize < st.blockSize :=
    Nat.mod_lt _ hbs
  simp only [readAt, if_neg hnor, if_neg hni, List.length_nil, Nat.sub_zero,
    min_eq_left hE]
  by_cases hoff : pos % st.blockSize > 0
  · -- unaligned start: a partial first block is read separately
    rw [if_pos hoff]
    dsimp only
    rw [chunkIf_eq st (pos / st.blockSize) (pos % st.blockSize)
      (min (st.blockSize - pos % st.blockSize) (min bufLen (st.fileSize - pos)))
      (by have := Nat.min_le_left (st.blockSize - pos % st.blockSize)
            (min bufLen (st.fileSize - pos)); omega)]
    have e1 : ((pos + min bufLen (st.fileSize - pos)) / st.blockSize - (pos / st.blockSize + 1))
          * st.blockSize
        = ((pos + min bufLen (st.fileSize - pos)) / st.blockSize) * st.blockSize
          - (pos / st.blockSize + 1) * st.blockSize := Nat.sub_mul _ _ _
    have e2 : ((pos + min bufLen (st.fileSize - pos)) / st.blockSize) * st.blockSize
        = st.blockSize * ((pos + min bufLen (st.fileSize - pos)) / st.blockSize) := by ring
    have e3 : (pos / st.blockSize + 1) * st.blockSize
        = st.blockSize * (pos / st.blockSize) + st.blockSize := by ring
    have e3b : pos / st.blockSize * st.blockSize = st.blockSize * (pos / st.blockSize) := by ring
    rcases Nat.le_total (st.blockSize - pos % st.blockSize) (min bufLen (st.fileSize - pos))
      with hbig | hsmall
    · -- the read continues past the first block
      rw [min_eq_left hbig]
      have hQge : pos / st.blockSize + 1
          ≤ (pos + min bufLen (st.fileSize - pos)) / st.blockSize := by
        rw [Nat.le_div_iff_mul_le hbs]
        omega
      have e4 : (pos / st.blockSize + 1) * st.blockSize
          ≤ ((pos + min bufLen (st.fileSize - pos)) / st.blockSize) * st.blockSize :=
        Nat.mul_le_mul_right st.blockSize hQge
      have hpre : (0 + ((pos + min bufLen (st.fileSize - pos)) / st.blockSize
            - (pos / st.blockSize + 1))) * st.blockSize
          ≤ min bufLen (st.fileSize - pos) - (st.blockSize - pos % st.blockSize) := by
        have e0 : (0 + ((pos + min bufLen (st.fileSize - pos)) / st.blockSize
              - (pos / st.blockSize + 1))) * st.blockSize
            = ((pos + min bufLen (st.fileSize - pos)) / st.blockSize
              - (pos / st.blockSize + 1)) * st.blockSize := by ring
        omega
      rw [readLoop_spec st _ _ _ _ _ hpre]
      dsimp only
      simp only [Nat.zero_mul, Nat.zero_add]
      have hrem2 : min bufLen (st.fileSize - pos) - (st.blockSize - pos % st.blockSize)
            - ((pos + min bufLen (st.fileSize - pos)) / st.blockSize
              - (pos / st.blockSize + 1)) * st.blockSize
          = (pos + min bufLen (st.fileSize - pos)) % st.blockSize := by
        omega
      rw [hrem2]
      rw [if_neg (by omega : ¬ st.blockSize
        ≤ (pos + min bufLen (st.fileSize - pos)) % st.blockSize)]
      rw [tailIf_eq st _ _ (by omega)]
      rw [show diskBytes st 0 0 = [] from rfl, List.nil_append]
      rw [blocksRun_eq st _ (pos / st.blockSize + 1)]
      rw [show pos / st.blockSize * st.blockSize + pos % st.blockSize = pos from by omega]
      rw [show (pos / st.blockSize + 1) * st.blockSize
          = pos + (st.blockSize - pos % st.blockSize) from by omega]
      simp only [List.nil_append]
      rw [← expectedBytes_append st (st.blockSize - pos % st.blockSize)
        (((pos + min bufLen (st.fileSize - pos)) / st.blockSize
          - (pos / st.blockSize + 1)) * st.blockSize) pos]
      rw [show ((pos + min bufLen (st.fileSize - pos)) / st.blockSize) * st.blockSize
          = pos + ((st.blockSize - pos % st.blockSize)
            + ((pos + min bufLen (st.fileSize - pos)) / st.blockSize
              - (pos / st.blockSize + 1)) * st.blockSize) from by omega]
      rw [← expectedBytes_append st ((st.blockSize - pos % st.blockSize)
          + ((pos + min bufLen (st.fileSize - pos)) / st.blockSize
            - (pos / st.blockSize + 1)) * st.blockSize)
        ((pos + min bufLen (st.fileSize - pos)) % st.blockSize) pos]
      rw [show (st.blockSize - pos % st.blockSize)
          + ((pos + min bufLen (st.fileSize - pos)) / st.blockSize
            - (pos / st.blockSize + 1)) * st.blockSize
          + (pos + min bufLen (st.fileSize - pos)) % st.blockSize
          = min bufLen (st.fileSize - pos) from by omega]
    · -- the read ends inside the first block
      rw [min_eq_right hsmall]
      have hQle : (pos + min bufLen (st.fileSize - pos)) / st.blockSize
          ≤ pos / st.blockSize + 1 := by
        have h1 : st.blockSize * ((pos + min bufLen (st.fileSize - pos)) / st.blockSize)
            ≤ st.blockSize * (pos / st.blockSize + 1) := by
          have e5 : st.blockSize * (pos / st.blockSize + 1)
              = st.blockSize * (pos / st.blockSize) + st.blockSize := by ring
          omega
        exact Nat.le_of_mul_le_mul_left h1 hbs
      have hn0 : (pos + min bufLen (st.fileSize - pos)) / st.blockSize
          - (pos / st.blockSize + 1) = 0 := by omega
      rw [hn0]
      have hsub0 : min bufLen (st.fileSize - pos) - min bufLen (st.fileSize - pos) = 0 :=
        Nat.sub_self _
      rw [hsub0]
      rw [readLoop_spec st 0 (pos / st.blockSize + 1) 0 0 0 (by omega)]
      dsimp only
      simp only [Nat.zero_mul, Nat.zero_add]
      rw [show diskBytes st 0 0 = [] from rfl]
      rw [show blocksRun st (pos / st.blockSize + 1) 0 = [] from rfl]
      rw [Nat.sub_self 0]
      rw [if_neg (by omega : ¬ st.blockSize ≤ 0)]
      rw [if_neg (by omega : ¬ (0 : Nat) ≠ 0)]
      rw [show pos / st.blockSize * st.blockSize + pos % st.blockSize = pos from by omega]
      simp
  · -- block-aligned start
    rw [if_neg hoff]
    dsimp only
    have e1 : ((pos + min bufLen (st.fileSize - pos)) / st.blockSize - pos / st.blockSize)
          * st.blockSize
        = ((pos + min bufLen (st.fileSize - pos)) / st.blockSize) * st.blockSize
          - (pos / st.blockSize) * st.blockSize := Nat.sub_mul _ _ _
    have e2 : ((pos + min bufLen (st.fileSize - pos)) / st.blockSize) * st.blockSize
        = st.blockSize * ((pos + min bufLen (st.fileSize - pos)) / st.blockSize) := by ring
    have e3 : (pos / st.blockSize) * st.blockSize = st.blockSize * (pos / st.blockSize) := by ring
    have hdiv_le : pos / st.blockSize
        ≤ (pos + min bufLen (st.fileSize - pos)) / st.blockSize :=
      Nat.div_le_div_right (by omega)
    have e4 : pos / st.blockSize * st.blockSize
        ≤ ((pos + min bufLen (st.fileSize - pos)) / st.blockSize) * st.blockSize :=
      Nat.mul_le_mul_right st.blockSize hdiv_le
    have hpre : (0 + ((pos + min bufLen (st.fileSize - pos)) / st.blockSize
          - pos / st.blockSize)) * st.blockSize
        ≤ min bufLen (st.fileSize - pos) := by
      have e0 : (0 + ((pos + min bufLen (st.fileSize - pos)) / st.blockSize
            - pos / st.blockSize)) * st.blockSize
          = ((pos + min bufLen (st.fileSize - pos)) / st.blockSize
            - pos / st.blockSize) * st.blockSize := by ring
      omega
    rw [readLoop_spec st _ _ _ _ _ hpre]
    dsimp only
    simp only [Nat.zero_mul, Nat.zero_add]
    have hrem2 : min bufLen (st.fileSize - pos)
          - ((pos + min bufLen (st.fileSize - pos)) / st.blockSize
            - pos / st.blockSize) * st.blockSize
        = (pos + min bufLen (st.fileSize - pos)) % st.blockSize := by
      omega
    rw [hrem2]
    rw [if_neg (by omega : ¬ st.blockSize
      ≤ (pos + min bufLen (st.fileSize - pos)) % st.blockSize)]
    rw [tailIf_eq st _ _ (by omega)]
    rw [show diskBytes st 0 0 = [] from rfl]
    rw [blocksRun_eq st _ (pos / st.blockSize)]
    rw [show pos / st.blockSize * st.blockSize = pos from by omega]
    rw [show ((pos + min bufLen (st.fileSize - pos)) / st.blockSize) * st.blockSize
        = pos + ((pos + min bufLen (st.fileSize - pos)) / st.blockSize
          - pos / st.blockSize) * st.blockSize from by omega]
    simp only [List.nil_append]
    rw [← expectedBytes_append st (((pos + min bufLen (st.fileSize - pos)) / st.blockSize
        - pos / st.blockSize) * st.blockSize)
      ((pos + min bufLen (st.fileSize - pos)) % st.blockSize) pos]
    rw [show ((pos + min bufLen (st.fileSize - pos)) / st.blockSize
          - pos / st.blockSize) * st.blockSize
        + (pos + min bufLen (st.fileSize - pos)) % st.blockSize
        = min bufLen (st.fileSize - pos) from by omega]

theorem blockSize_ge (st : FileState) : 1024 ≤ st.blockSize := by
  simp only [FileState.blockSize]
  calc (1024 : Nat) = 1024 * 1 := by norm_num
    _ ≤ 1024 * 2 ^ st.logBlockSize :=
      Nat.mul_le_mul_left 1024 (Nat.one_le_two_pow)

theorem readAt_inline (st : FileState) (hsym : st.itype = InodeType.symlink)
    (hsz : st.fileSize < 60) :
    readAt st st.fileSize 0 = .ok (inlineBytes st 0 st.fileSize) := by
  by_cases h0 : st.fileSize = 0
  · rw [h0]
    simp [readAt, inlineBytes]
  · have hbs := blockSize_pos st
    have hnor : ¬(0 ≥ st.fileSize ∨ st.fileSize = 0) := by omega
    simp [readAt, if_neg hnor, hsym, hsz, inlineBytes_length, readLoop, readFlush,
      Nat.sub_self, hbs.ne']
    intro hc
    exact absurd hc h0

/-- C9: a directory iterator whose cursor is exhausted stays exhausted: the
current entry is none, a step is a no-op success, and any number of further
steps still succeeds while leaving the iterator unchanged, so no sequence of
operations ever returns an entry after exhaustion. -/
theorem dir_iterator_exhaustion_terminal (it : DirIterState)
    (h : DirReader.current it = none) :
    DirReader.step it = .ok it ∧ (∀ n : Nat, DirReader.stepRun it n = .ok it) ∧
      DirReader.current it = none := by
  have hcurr : it.curr = none := h
  have hstep : DirReader.step it = .ok it := by
    simp [DirReader.step, hcurr]
  refine ⟨hstep, ?_, h⟩
  intro n
  induction n with
  | zero => rfl
  | succ n ih => simp [DirReader.stepRun, hstep, ih]

/-- C9 witness: the exhausted iterator at a concrete value. -/
theorem dir_iterator_exhaustion_terminal_witness :
    DirReader.step ⟨none, []⟩ = .ok ⟨none, []⟩ ∧
      DirReader.stepRun ⟨none, []⟩ 3 = .ok ⟨none, []⟩ := by
  have h := dir_iterator_exhaustion_terminal ⟨none, []⟩ rfl
  exact ⟨h.1, h.2.1 3⟩

/-- C2: with seconds well inside the 34-bit range and a nanosecond count of
7 (exactly representable in the 30-bit field, so the claimed truncation is
the identity on it), encoding and then decoding returns 0 nanoseconds
instead of 7: the round-trip drops the nanosecond value, refuting the
claimed symmetry.  The seconds value does survive. -/
theorem decode_encode_drops_nanoseconds :
    decode_time (encode_time ⟨5, 7⟩).1 (encode_time ⟨5, 7⟩).2 = ⟨5, 0⟩ ∧
      7 % 2 ^ 30 = 7 ∧ 5 < 2 ^ 34 := by
  decide


def exC1 : FileState := ⟨0, InodeType.regularFile, 0, [], 0, 1, [], true, []⟩

/-- C1: the spec says a `write_at` whose offset is strictly beyond the
current end of file first extends the file (with a hole reading back as
zero) and then succeeds, returning the buffer length.  In the code that
path calls `set_len`, whose growing branch is the unimplemented `todo!()`,
so every such call panics instead of extending the file: no write beyond
the end of file can succeed. -/
theorem write_at_beyond_eof_panics (st : FileState) (buf : List Nat) (pos : Nat)
    (h : st.fileSize < pos) :
    writeAt st buf pos = .error RunErr.crash := by
  have h1 : ¬(pos < st.fileSize) := by omega
  simp [writeAt, setLen, h, h1, errBind]

/-- C1 witness: writing one byte at offset 1 of an empty regular file
panics. -/
theorem write_at_beyond_eof_panics_witness :
    exC1.fileSize < 1 ∧ writeAt exC1 [42] 1 = .error RunErr.crash :=
  ⟨by decide, write_at_beyond_eof_panics exC1 [42] 1 (by decide)⟩

def exC5 : FileState :=
  ⟨0, InodeType.regularFile, 3072, [(0, 5), (2, 6)], 3, 7, [], true, []⟩

/-- C5: `read_at` clamps the request to the end of file: a call at or past
the end of file, or with an empty buffer, succeeds with no bytes; otherwise
(for the block-backed path, i.e. not the inline-symlink special case) it
succeeds, delivers exactly `min bufLen (fileSize - pos)` bytes, and every
byte falling in an unmapped (hole) block is delivered as zero rather than
an error. -/
theorem read_at_clamps_and_reads_holes_as_zero (st : FileState) (bufLen pos : Nat) :
    ((st.fileSize ≤ pos ∨ bufLen = 0) → readAt st bufLen pos = .ok []) ∧
    (pos < st.fileSize → 0 < bufLen →
      ¬(st.itype = InodeType.symlink ∧ st.fileSize < 60) →
      ∃ out, readAt st bufLen pos = .ok out ∧
        out.length = min bufLen (st.fileSize - pos) ∧
        ∀ i, i < out.length → getInodeFblock st ((pos + i) / st.blockSize) = 0 →
          out.getD i 0 = 0) := by
  constructor
  · intro h
    have h2 : pos ≥ st.fileSize ∨ bufLen = 0 := by omega
    simp only [readAt, if_pos h2]
  · intro h1 h2 h3
    refine ⟨expectedBytes st pos (min bufLen (st.fileSize - pos)),
      readAt_eq_expected st bufLen pos h1 h2 h3, expectedBytes_length st _ _, ?_⟩
    intro i hi hhole
    rw [expectedBytes_length st _ _] at hi
    rw [expectedBytes_getD st _ _ _ hi]
    simp [expectedByte, hhole]

/-- C5 witness: on a 3072-byte file whose middle block is a hole, a read
past the end of file returns no bytes, and a 100-byte read inside the hole
succeeds with 100 zero bytes. -/
theorem read_at_clamps_witness :
    (exC5.fileSize ≤ 4000 ∨ (10 : Nat) = 0) ∧
    readAt exC5 10 4000 = .ok [] ∧
    1500 < exC5.fileSize ∧ 0 < 100 ∧
    ¬(exC5.itype = InodeType.symlink ∧ exC5.fileSize < 60) ∧
    (∃ out, readAt exC5 100 1500 = .ok out ∧
      out.length = min 100 (exC5.fileSize - 1500) ∧
      ∀ i, i < out.length → getInodeFblock exC5 ((1500 + i) / exC5.blockSize) = 0 →
        out.getD i 0 = 0) :=
  ⟨by decide,
   (read_at_clamps_and_reads_holes_as_zero exC5 10 4000).1 (by decide),
   by decide, by decide, by decide,
   (read_at_clamps_and_reads_holes_as_zero exC5 100 1500).2
     (by decide) (by decide) (by decide)⟩

def exC8 : FileState :=
  ⟨0, InodeType.symlink, 0, [], 0, 1, List.replicate 60 0, true, []⟩

/-- C8: `set_symlink` fails with the name-too-long error (code 36) exactly
when the target exceeds one filesystem block; a target under the 60-byte
inline capacity is stored in the inode body with no block allocated, no
device write, and reads back through `read_at`; and every successful call
records the target length as the inode size. -/
theorem set_symlink_semantics (st : FileState) (target : List Nat) :
    ((∃ e, setSymlink st target = .error (.fail e) ∧ e.code = enametoolong)
        ↔ st.blockSize < target.length) ∧
    (target.length < 4 * 15 →
      setSymlink st target = .ok (symlinkInlineState st target) ∧
      (symlinkInlineState st target).blockMap = st.blockMap ∧
      (symlinkInlineState st target).nextPhys = st.nextPhys ∧
      (symlinkInlineState st target).disk = st.disk ∧
      (symlinkInlineState st target).fileSize = target.length ∧
      (st.itype = InodeType.symlink →
        readAt (symlinkInlineState st target) target.length 0 = .ok target)) ∧
    (∀ st', setSymlink st target = .ok st' → st'.fileSize = target.length) := by
  have hbig := blockSize_ge st
  by_cases hlen : st.blockSize < target.length
  · have hE : setSymlink st target
        = .error (.fail ⟨enametoolong, some "symlink too long"⟩) := by
      simp [setSymlink, if_pos hlen]
    refine ⟨⟨fun _ => hlen,
      fun _ => ⟨⟨enametoolong, some "symlink too long"⟩, hE, rfl⟩⟩, ?_, ?_⟩
    · intro h60
      exfalso
      omega
    · intro st' hok
      rw [hE] at hok
      exact absurd hok (by simp)
  · have hnl : ¬(target.length > st.blockSize) := hlen
    refine ⟨⟨?_, fun hgt => absurd hgt hlen⟩, ?_, ?_⟩
    · rintro ⟨e, he, _⟩
      by_cases h60 : target.length < 4 * 15
      · simp [setSymlink, if_neg hnl, if_pos h60] at he
      · simp [setSymlink, if_neg hnl, if_neg h60] at he
    · intro h60
      refine ⟨by simp [setSymlink, if_neg hnl, if_pos h60], rfl, rfl, rfl, rfl, ?_⟩
      intro hsym
      have hsym2 : (symlinkInlineState st target).itype = InodeType.symlink := hsym
      have hsz2 : (symlinkInlineState st target).fileSize < 60 := by
        show target.length < 60
        omega
      have hr := readAt_inline (symlinkInlineState st target) hsym2 hsz2
      have hfs : (symlinkInlineState st target).fileSize = target.length := rfl
      rw [hfs] at hr
      rw [hr]
      have hib := inlineBytes_of_append (symlinkInlineState st target) target []
        (st.inlineData.drop target.length) (by simp [symlinkInlineState])
      have hib2 : inlineBytes (symlinkInlineState st target) 0 target.length = target := by
        simpa using hib
      rw [hib2]
    · intro st' hok
      by_cases h60 : target.length < 4 * 15
      · simp only [setSymlink, if_neg hnl, if_pos h60, Except.ok.injEq] at hok
        rw [← hok]
        rfl
      · simp only [setSymlink, if_neg hnl, if_neg h60, Except.ok.injEq] at hok
        rw [← hok]

/-- C8 witness: a 2000-byte target on a 1024-byte-block filesystem is
rejected with code 36, and the 2-byte target "hi" is stored inline, leaves
the block map, allocator and device untouched, sets the size to 2, and
reads back. -/
theorem set_symlink_semantics_witness :
    ((∃ e, setSymlink exC8 (List.replicate 2000 7) = .error (.fail e) ∧
        e.code = enametoolong) ↔ exC8.blockSize < (List.replicate 2000 7).length) ∧
    ([104, 105].length < 4 * 15) ∧
    (setSymlink exC8 [104, 105] = .ok (symlinkInlineState exC8 [104, 105]) ∧
      (symlinkInlineState exC8 [104, 105]).blockMap = exC8.blockMap ∧
      (symlinkInlineState exC8 [104, 105]).nextPhys = exC8.nextPhys ∧
      (symlinkInlineState exC8 [104, 105]).disk = exC8.disk ∧
      (symlinkInlineState exC8 [104, 105]).fileSize = [104, 105].length ∧
      (exC8.itype = InodeType.symlink →
        readAt (symlinkInlineState exC8 [104, 105]) [104, 105].length 0
          = .ok [104, 105])) :=
  ⟨(set_symlink_semantics exC8 (List.replicate 2000 7)).1,
   by decide,
   (set_symlink_semantics exC8 [104, 105]).2.1 (by decide)⟩
